import Mathlib

/-! # C-Prog-Common: bounded queue (queue.c) and MAX3109 SPI-to-UART driver (MAX3109.c)

A shallow embedding of the two modules and the properties established about them.

Modelling conventions

* `size_t` values are natural numbers; every `size_t` operation of the source that can
  wrap (`capacity - 1`, `write++`, `read++`, `write - read`) is reduced modulo `SIZE_MOD`.
  In the states reached from a reset queue whose capacity is at least 1 and fits the
  type none of them wraps, so the results do not depend on the width chosen.
* `uint32_t` queue elements are carried as natural numbers: the queue only copies them.
* The caller-owned backing array `data` is a list; a read outside the list yields `0`
  and a write outside the list is dropped (the source never does either from a state
  reached from a reset queue whose backing array has `capacity` slots).
* A C function that mutates `*q` becomes a function returning the new queue; `q_pop`
  returns the popped value together with the new queue.
-/

namespace CProgCommon

/-! ## queue.h / queue.c -/

/-- Number of values of the type `size_t` (64-bit `size_t`). -/
def SIZE_MOD : Nat := 2 ^ 64

/-- The record `struct Queue_t` of queue.h. -/
structure Queue where
  write : Nat
  read : Nat
  data : List Nat
  capacity : Nat
  isQueueFull : Bool
deriving DecidableEq, Repr

/-- The function `q_reset` of queue.c. -/
def q_reset (q : Queue) : Queue :=
  { q with read := 0, write := 0, isQueueFull := false }

/-- The function `q_push` of queue.c. -/
def q_push (q : Queue) (value : Nat) : Queue :=
  if q.write = (q.capacity + SIZE_MOD - 1) % SIZE_MOD ∧ q.isQueueFull = true then
    q
  else
    let q1 : Queue := { q with data := q.data.set q.write value }
    if q1.write = (q1.capacity + SIZE_MOD - 1) % SIZE_MOD then
      { q1 with isQueueFull := true }
    else
      { q1 with write := (q1.write + 1) % SIZE_MOD, isQueueFull := false }

/-- The function `q_pop` of queue.c: the returned value and the queue afterwards. -/
def q_pop (q : Queue) : Nat × Queue :=
  if q.write = 0 ∧ q.read = 0 then
    (0, q)
  else
    let returnval := q.data.getD q.read 0
    if q.write = q.read ∨
        (q.isQueueFull = true ∧ q.read = (q.capacity + SIZE_MOD - 1) % SIZE_MOD) then
      (returnval, q_reset q)
    else
      (returnval, { q with read := (q.read + 1) % SIZE_MOD })

/-- The function `q_peek` of queue.c. -/
def q_peek (q : Queue) (offset : Nat) : Nat :=
  if (q.read + offset) % SIZE_MOD < (q.capacity + SIZE_MOD - 1) % SIZE_MOD then
    q.data.getD ((q.read + offset) % SIZE_MOD) 0
  else
    0

/-- The function `q_numMsgsInQueue` of queue.c. -/
def q_numMsgsInQueue (q : Queue) : Nat :=
  if q.isQueueFull = true then q.capacity else (q.write + SIZE_MOD - q.read) % SIZE_MOD

/-! ### Call sequences -/

/-- One call made on a queue by its user. -/
inductive QOp where
  | push (value : Nat)
  | pop
  | reset
deriving DecidableEq, Repr

/-- The queue after one call. -/
def QOp.apply (op : QOp) (q : Queue) : Queue :=
  match op with
  | .push v => q_push q v
  | .pop => (q_pop q).2
  | .reset => q_reset q

/-- Whether `q_push` stores its value (it does unless it takes its early return). -/
def q_pushAccepts (q : Queue) : Bool :=
  !(decide (q.write = (q.capacity + SIZE_MOD - 1) % SIZE_MOD) && q.isQueueFull)

/-- Bookkeeping of the staged values, oldest first: a value enters when `q_push` accepts
it, the oldest one leaves at a `q_pop`, and `q_reset` discards all of them. The queue
argument is the queue before the call. -/
def stagedAfter (op : QOp) (q : Queue) (staged : List Nat) : List Nat :=
  match op with
  | .push v => if q_pushAccepts q then staged ++ [v] else staged
  | .pop => staged.tail
  | .reset => []

/-- The queue and the staged values after a sequence of calls (first call first). -/
def runOps : List QOp → Queue × List Nat → Queue × List Nat
  | [], s => s
  | op :: ops, s => runOps ops (op.apply s.1, stagedAfter op s.1 s.2)

/-- Consecutive `q_push` calls, one per value, first value first. -/
def q_pushAll : Queue → List Nat → Queue
  | q, [] => q
  | q, v :: vs => q_pushAll (q_push q v) vs

/-- The results of `n` consecutive `q_pop` calls, first result first, and the queue
afterwards. -/
def q_popN : Queue → Nat → List Nat × Queue
  | q, 0 => ([], q)
  | q, n + 1 =>
    let r := q_pop q
    let rest := q_popN r.2 n
    (r.1 :: rest.1, rest.2)

/-- A queue record of capacity 4 over a zeroed backing array of 4 slots. -/
def storage4 : Queue :=
  { write := 0, read := 0, data := [0, 0, 0, 0], capacity := 4, isQueueFull := false }

/-- The capacity-4 queue after `q_reset`. -/
def queue4 : Queue := q_reset storage4

/-- A queue record of capacity 2 over a zeroed backing array of 2 slots. -/
def storage2 : Queue :=
  { write := 0, read := 0, data := [0, 0], capacity := 2, isQueueFull := false }

/-- Structural invariant of every state reached from a reset queue of capacity `c`. -/
structure QInv (c : Nat) (q : Queue) : Prop where
  cap : q.capacity = c
  len : q.data.length = c
  rw : q.read ≤ q.write
  wlt : q.write < c
  full : q.isQueueFull = true → q.write = c - 1
  csz : c < SIZE_MOD

/-- The slots of the backing array that hold staged values, read out oldest first:
from `read` up to the final index when the full flag is set, from `read` up to but
excluding `write` otherwise. -/
def slots (q : Queue) : List Nat :=
  (List.range' q.read
    (if q.isQueueFull = true then q.capacity - q.read else q.write - q.read)).map
    (fun i => q.data.getD i 0)

/-! ## MAX3109.h / MAX3109.c

Enumerators are natural numbers: a C enumeration parameter can carry any integer, and the
driver itself tests for values outside the enumeration. The `uint8_t` parameters carry
byte values. The file-static variable `dummy` only receives words that are never read
and is left out. -/

/-- The macro `MAXIMUM_MAX3109_FIFO_SIZE_IN_BYTES` of MAX3109.h. -/
def MAXIMUM_MAX3109_FIFO_SIZE_IN_BYTES : Nat := 128

def max3109_TRxHR : Nat := 0x0000
def max3109_IRQEn : Nat := 0x0100
def max3109_ISR_Status : Nat := 0x0200
def max3109_LSRIntEn : Nat := 0x0300
def max3109_LSR : Nat := 0x0400
def max3109_SpclChrIntEn : Nat := 0x0500
def max3109_SpclCharInt : Nat := 0x0600
def max3109_STSIntEn : Nat := 0x0700
def max3109_STSInt : Nat := 0x0800
def max3109_MODE1 : Nat := 0x0900
def max3109_MODE2 : Nat := 0x0A00
def max3109_LCR : Nat := 0x0B00
def max3109_RxTimeOut : Nat := 0x0C00
def max3109_HDplxDelay : Nat := 0x0D00
def max3109_IrDA : Nat := 0x0E00
def max3109_FlowLvl : Nat := 0x0F00
def max3109_FIFOTrgLvl : Nat := 0x1000
def max3109_TxFIFOLvl : Nat := 0x1100
def max3109_RxFIFOLvl : Nat := 0x1200
def max3109_PLLConfig : Nat := 0x1A00
def max3109_BRGConfig : Nat := 0x1B00
def max3109_DIVLSB : Nat := 0x1C00
def max3109_DIVMSB : Nat := 0x1D00
def max3109CLKSource : Nat := 0x1E00
def max3109_GlobalIRQ : Nat := 0x1F00
def max3109_GloblComnd : Nat := 0x1F00
def max3109_TxSync : Nat := 0x2000
def max3109_SynchDelay1 : Nat := 0x2100
def max3109_SynchDelay2 : Nat := 0x2200
def max3109_Timer1 : Nat := 0x2300
def max3109_Timer2 : Nat := 0x2400
def max3109_RevID : Nat := 0x2500

/-- The enumerators of `MAX3109_REGISTER_ADDRESS_VALUE`, in declaration order. -/
def MAX3109_REGISTER_ADDRESS_VALUE : List Nat :=
  [max3109_TRxHR, max3109_IRQEn, max3109_ISR_Status, max3109_LSRIntEn, max3109_LSR,
   max3109_SpclChrIntEn, max3109_SpclCharInt, max3109_STSIntEn, max3109_STSInt,
   max3109_MODE1, max3109_MODE2, max3109_LCR, max3109_RxTimeOut, max3109_HDplxDelay,
   max3109_IrDA, max3109_FlowLvl, max3109_FIFOTrgLvl, max3109_TxFIFOLvl,
   max3109_RxFIFOLvl, max3109_PLLConfig, max3109_BRGConfig, max3109_DIVLSB,
   max3109_DIVMSB, max3109CLKSource, max3109_GlobalIRQ, max3109_GloblComnd,
   max3109_TxSync, max3109_SynchDelay1, max3109_SynchDelay2, max3109_Timer1,
   max3109_Timer2, max3109_RevID]

def UART_0 : Nat := 0x0000
def UART_1 : Nat := 0x2000

def READ_MAX : Nat := 0x0
def WRITE_MAX : Nat := 0x8000

def maxRetryAttempts : Nat := 3
def CLKSourceMASK : Nat := 0x8C

/-- The words clocked out on the wire so far, oldest first. -/
abbrev Wire := List Nat

/-- The bridge chip as the driver sees it through the transaction primitive: the word it
answers to the latest exchange, given every word clocked out so far (the latest last). -/
abbrev Bridge := Wire → Nat

/-- The function `SPIreadWriteWord` of newSPI.c: one 16-bit exchange. The hardware side
(buffer register, receive-full flag) is the bridge; the word stored through `readData`
is returned with the wire. The spin on the receive-full flag is taken to end. -/
def SPIreadWriteWord (chip : Bridge) (writeData : Nat) (wire : Wire) : Nat × Wire :=
  (chip (wire ++ [writeData]) % 65536, wire ++ [writeData])

/-- The function `UARTChannelIsInvalid` of MAX3109.c. -/
def UARTChannelIsInvalid (channel : Nat) : Bool :=
  if channel ≠ UART_0 ∧ channel ≠ UART_1 then true else false

/-- The function `MAXwriteRegisterValue` of MAX3109.c. -/
def MAXwriteRegisterValue (chip : Bridge) (channel maxRegister value : Nat) (wire : Wire) :
    Nat × Wire :=
  if UARTChannelIsInvalid channel = true then
    (1, wire)
  else
    let spiMsg := (WRITE_MAX ||| channel ||| maxRegister ||| value) % 65536
    let x := SPIreadWriteWord chip spiMsg wire
    (0, x.2)

/-- The function `MAXreadRegisterValue` of MAX3109.c. -/
def MAXreadRegisterValue (chip : Bridge) (channel maxRegister : Nat) (wire : Wire) :
    Nat × Wire :=
  if UARTChannelIsInvalid channel = true then
    (1, wire)
  else
    let spiMsg := (READ_MAX ||| channel ||| maxRegister) % 65536
    let x := SPIreadWriteWord chip spiMsg wire
    let readValue := x.1 &&& 0xFF
    (readValue, x.2)

/-- The body of the first `while` loop of `MAXInitializeMAX3109`: the four known-value
reads accumulated into `readRegisterResult`. -/
def knownValueReadback (chip : Bridge) (wire : Wire) : Nat × Wire :=
  let readRegisterResult := 1
  let r1 := MAXreadRegisterValue chip UART_0 max3109_DIVLSB wire
  let readRegisterResult := readRegisterResult &&& r1.1
  let r2 := MAXreadRegisterValue chip UART_0 max3109_PLLConfig r1.2
  let readRegisterResult := readRegisterResult &&& r2.1
  let r3 := MAXreadRegisterValue chip UART_1 max3109_DIVLSB r2.2
  let readRegisterResult := readRegisterResult &&& r3.1
  let r4 := MAXreadRegisterValue chip UART_1 max3109_PLLConfig r3.2
  let readRegisterResult := readRegisterResult &&& r4.1
  (readRegisterResult, r4.2)

/-- The first `while` loop of `MAXInitializeMAX3109`, by recursion on `retryCounterA`:
the value of `retryCounterA` when the loop is left, and the wire. -/
def retryLoopA (chip : Bridge) : Nat → Wire → Nat × Wire
  | 0, wire => (0, wire)
  | retryCounterA + 1, wire =>
    let r := knownValueReadback chip wire
    if 1 = r.1 then (retryCounterA + 1, r.2)
    else retryLoopA chip retryCounterA r.2

/-- The body of the second `while` loop of `MAXInitializeMAX3109`: the four configuration
writes and the four readback comparisons accumulated into `isMAXstartupValid`. -/
def configWriteVerify (chip : Bridge) (maxPLLConfiguration maxClockConfig uartLineConfig : Nat)
    (wire : Wire) : Nat × Wire :=
  let isMAXstartupValid := 1
  let w1 := MAXwriteRegisterValue chip UART_0 max3109CLKSource maxClockConfig wire
  let w2 := MAXwriteRegisterValue chip UART_0 max3109_PLLConfig maxPLLConfiguration w1.2
  let w3 := MAXwriteRegisterValue chip UART_0 max3109_LCR uartLineConfig w2.2
  let w4 := MAXwriteRegisterValue chip UART_1 max3109_LCR uartLineConfig w3.2
  let r1 := MAXreadRegisterValue chip UART_0 max3109CLKSource w4.2
  let isMAXstartupValid :=
    isMAXstartupValid &&& (if maxClockConfig = (r1.1 &&& CLKSourceMASK) then 1 else 0)
  let r2 := MAXreadRegisterValue chip UART_0 max3109_PLLConfig r1.2
  let isMAXstartupValid :=
    isMAXstartupValid &&& (if maxPLLConfiguration = r2.1 then 1 else 0)
  let r3 := MAXreadRegisterValue chip UART_0 max3109_LCR r2.2
  let isMAXstartupValid := isMAXstartupValid &&& (if uartLineConfig = r3.1 then 1 else 0)
  let r4 := MAXreadRegisterValue chip UART_1 max3109_LCR r3.2
  let isMAXstartupValid := isMAXstartupValid &&& (if uartLineConfig = r4.1 then 1 else 0)
  (isMAXstartupValid, r4.2)

/-- The second `while` loop of `MAXInitializeMAX3109`, by recursion on `retryCounterB`:
the value of `isMAXstartupValid` when the loop is left, and the wire. The second argument
is the value `isMAXstartupValid` holds when the loop condition is tested. -/
def retryLoopB (chip : Bridge) (maxPLLConfiguration maxClockConfig uartLineConfig : Nat) :
    Nat → Nat → Wire → Nat × Wire
  | 0, isMAXstartupValid, wire => (isMAXstartupValid, wire)
  | retryCounterB + 1, _, wire =>
    let r := configWriteVerify chip maxPLLConfiguration maxClockConfig uartLineConfig wire
    if 1 = r.1 then (r.1, r.2)
    else retryLoopB chip maxPLLConfiguration maxClockConfig uartLineConfig retryCounterB r.1 r.2

/-- The function `MAXInitializeMAX3109` of MAX3109.c. The local `isMAXstartupValid` is
declared without a value and assigned in the first pass of the loop; it enters the loop
as 0 here. -/
def MAXInitializeMAX3109 (chip : Bridge)
    (maxPLLConfiguration maxClockConfig uartLineConfig : Nat) (wire : Wire) : Nat × Wire :=
  let m1 := MAXwriteRegisterValue chip UART_0 max3109_MODE2 0x01 wire
  let m2 := MAXwriteRegisterValue chip UART_1 max3109_MODE2 0x01 m1.2
  let m3 := MAXwriteRegisterValue chip UART_0 max3109_MODE2 0x00 m2.2
  let m4 := MAXwriteRegisterValue chip UART_1 max3109_MODE2 0x00 m3.2
  let a := retryLoopA chip maxRetryAttempts m4.2
  if 0 = a.1 then
    (0, a.2)
  else
    retryLoopB chip maxPLLConfiguration maxClockConfig uartLineConfig maxRetryAttempts 0 a.2

/-- The function `MAXPopSingleValueFromUARTRxFIFO` of MAX3109.c. -/
def MAXPopSingleValueFromUARTRxFIFO (chip : Bridge) (channel : Nat) (wire : Wire) :
    Nat × Wire :=
  if UARTChannelIsInvalid channel = true then
    (1, wire)
  else
    MAXreadRegisterValue chip channel max3109_TRxHR wire

/-- The function `MAXPushSingleValueToUARTTxFIFO` of MAX3109.c. -/
def MAXPushSingleValueToUARTTxFIFO (chip : Bridge) (channel valueToWrite : Nat)
    (wire : Wire) : Nat × Wire :=
  if UARTChannelIsInvalid channel = true then
    (1, wire)
  else
    MAXwriteRegisterValue chip channel max3109_TRxHR valueToWrite wire

/-- The function `MAXGetUARTFIFOLevel` of MAX3109.c. -/
def MAXGetUARTFIFOLevel (chip : Bridge) (channel fifoBuffer : Nat) (wire : Wire) :
    Nat × Wire :=
  if (fifoBuffer ≠ max3109_TxFIFOLvl ∧ fifoBuffer ≠ max3109_RxFIFOLvl) ∨
      UARTChannelIsInvalid channel = true then
    (0xFF, wire)
  else
    let r := MAXreadRegisterValue chip channel fifoBuffer wire
    let fifoLevel := if r.1 > MAXIMUM_MAX3109_FIFO_SIZE_IN_BYTES then 0xFF else r.1
    (fifoLevel, r.2)

/-- The function `MAXIsUARTReceiveReadyToRead` of MAX3109.c. -/
def MAXIsUARTReceiveReadyToRead (chip : Bridge) (channel : Nat) (wire : Wire) :
    Bool × Wire :=
  if UARTChannelIsInvalid channel = true then
    (false, wire)
  else
    let r1 := MAXreadRegisterValue chip channel max3109_ISR_Status wire
    let DoesRxFIFOHaveData : Bool := if 0x40 = (r1.1 &&& 0x40) then true else false
    let r2 := MAXreadRegisterValue chip channel max3109_LSR r1.2
    let IsRxTimeout : Bool := if 0x01 = (r2.1 &&& 0x01) then true else false
    (DoesRxFIFOHaveData && IsRxTimeout, r2.2)

/-- A bridge that answers 0xFFFF to every exchange. -/
def allOnesBridge : Bridge := fun _ => 0xFFFF

/-- The command-word layout of the wire protocol: bit 15 is the write bit, bit 14 is
clear, bit 13 tells the channel, bits 12-8 are the register field (so that the field,
shifted back into place, is the register code) and bits 7-0 are the payload. -/
def HasCommandLayout (w : Nat) (isWrite : Bool) (channel maxRegister payload : Nat) : Prop :=
  w.testBit 15 = isWrite ∧ w.testBit 14 = false ∧
    (w.testBit 13 = true ↔ channel = UART_1) ∧
    256 * (w / 256 % 32) = maxRegister ∧ w % 256 = payload

/-- A queue record of capacity 1 over a zeroed backing array of 1 slot. -/
def storage1 : Queue :=
  { write := 0, read := 0, data := [0], capacity := 1, isQueueFull := false }

/-- The four words of the master reset at the start of `MAXInitializeMAX3109`. -/
def resetWords : List Nat := [0x8A01, 0xAA01, 0x8A00, 0xAA00]

/-- The four read words of one known-value group: DIVLSB and PLLConfig on UART_0, then
on UART_1. -/
def knownValueWords : List Nat := [0x1C00, 0x1A00, 0x3C00, 0x3A00]

/-- A bridge that answers 0 to every exchange. -/
def zeroBridge : Bridge := fun _ => 0

/-- A bridge that behaves as a register file: to a read word it answers the payload of
the latest write word for the same channel and register, and 1 when that register has
not been written (the value the known-value registers hold after reset); to a write word
it answers 0. -/
def faithfulBridge : Bridge := fun wire =>
  match wire.getLast? with
  | none => 0
  | some w =>
    if w < 0x8000 then
      match wire.reverse.find? (fun x => x / 256 == (w + 0x8000) / 256) with
      | some x => x % 256
      | none => 1
    else 0

/-- A bridge whose receive FIFO on UART_1 reports a fill level of 2: it answers 2 to the
read word of the receive-level register on UART_1 (0x3200) and, to any other word, 0x40
plus the number of words sent so far. -/
def fifoBridge : Bridge := fun wire =>
  if wire.getLast? = some 0x3200 then 2 else 0x40 + wire.length

/-- The eight words of one configuration group of `MAXInitializeMAX3109`: the writes of
the clock source and the PLL configuration on UART_0 and of the line control on both
channels, then the four readbacks. -/
def configWords (maxPLLConfiguration maxClockConfig uartLineConfig : Nat) : List Nat :=
  [(WRITE_MAX ||| UART_0 ||| max3109CLKSource ||| maxClockConfig) % 65536,
   (WRITE_MAX ||| UART_0 ||| max3109_PLLConfig ||| maxPLLConfiguration) % 65536,
   (WRITE_MAX ||| UART_0 ||| max3109_LCR ||| uartLineConfig) % 65536,
   (WRITE_MAX ||| UART_1 ||| max3109_LCR ||| uartLineConfig) % 65536,
   0x1E00, 0x1A00, 0x0B00, 0x2B00]

/-- A group of words sent `n` times in a row. -/
def repeatGroup : Nat → List Nat → List Nat
  | 0, _ => []
  | n + 1, g => g ++ repeatGroup n g

/-- A bridge that answers 0 to the first four exchanges and 0xFFFF to every later one. -/
def lateOnesBridge : Bridge := fun wire => if wire.length ≤ 4 then 0 else 0xFFFF

/-! ## SPItoUART.h / SPItoUART.c

The byte buffer type `circBuffer_t` and its operations are declared in CircularBuffer.h,
which is not part of the sources at hand; the two transfer functions take them as
parameters. A buffer pointer is an optional buffer, `none` standing for `NULL`. -/

/-- The operations of CircularBuffer.h that SPItoUART.c calls, over a buffer type `β`. -/
structure CircBufferOps (β : Type) where
  cb_push : β → Nat → β
  cb_peek : β → Nat → Nat
  cb_advance_tail : β → Nat → β

/-- Modelled from the spec: the byte buffer of CircularBuffer.h (not under src/), which
the spec describes only by its contract of push, peek-at-offset and advance-tail. The
staged bytes are a list, oldest (the tail) first: push appends a byte, peek reads the
byte at an offset from the tail (0 when there is none), advance-tail discards that many
bytes from the tail. -/
def listBuffer : CircBufferOps (List Nat) where
  cb_push := fun b v => b ++ [v]
  cb_peek := fun b offset => b.getD offset 0
  cb_advance_tail := fun b n => b.drop n

/-- The `for` loop of `ReadDataFromUARTBuffer`, by recursion on the number of passes
left (`numBytesToRead - counter`): the final `counter`, the wire and the buffer. -/
def readLoop {β : Type} (ops : CircBufferOps β) (chip : Bridge) (channel : Nat) :
    Nat → Nat → Wire → β → Nat × Wire × β
  | 0, counter, wire, rxBuf => (counter, wire, rxBuf)
  | left + 1, counter, wire, rxBuf =>
    let poppedValue := MAXPopSingleValueFromUARTRxFIFO chip channel wire
    readLoop ops chip channel left ((counter + 1) % 256) poppedValue.2
      (ops.cb_push rxBuf poppedValue.1)

/-- The function `ReadDataFromUARTBuffer` of SPItoUART.c: the returned count, the wire
and the buffer afterwards. -/
def ReadDataFromUARTBuffer {β : Type} (ops : CircBufferOps β) (chip : Bridge)
    (channel : Nat) (rxBuf : Option β) (wire : Wire) : Nat × Wire × Option β :=
  match rxBuf with
  | none => (0, wire, none)
  | some buf =>
    let numBytesToRead := MAXGetUARTFIFOLevel chip channel max3109_RxFIFOLvl wire
    if numBytesToRead.1 > MAXIMUM_MAX3109_FIFO_SIZE_IN_BYTES ∨ 0 = numBytesToRead.1 then
      (0, numBytesToRead.2, some buf)
    else
      let r := readLoop ops chip channel numBytesToRead.1 0 numBytesToRead.2 buf
      (r.1, r.2.1, some r.2.2)

/-- The `for` loop of `WriteDataToUARTTransmitBuffer`, by recursion on the number of
passes left (`numBytesToWrite - counter`): the final `numBytesWritten` and
`errorCounter` (both `uint8_t`) and the wire. -/
def writeLoop {β : Type} (ops : CircBufferOps β) (chip : Bridge) (channel : Nat) (txBuf : β) :
    Nat → Nat → Nat → Nat → Wire → Nat × Nat × Wire
  | 0, _, numBytesWritten, errorCounter, wire => (numBytesWritten, errorCounter, wire)
  | left + 1, counter, numBytesWritten, errorCounter, wire =>
    let dataToWrite := ops.cb_peek txBuf counter % 256
    let pushed := MAXPushSingleValueToUARTTxFIFO chip channel dataToWrite wire
    writeLoop ops chip channel txBuf left ((counter + 1) % 256)
      ((numBytesWritten + 1) % 256) ((errorCounter + pushed.1) % 256) pushed.2

/-- The function `WriteDataToUARTTransmitBuffer` of SPItoUART.c: the returned count, the
wire and the transmit buffer afterwards. -/
def WriteDataToUARTTransmitBuffer {β : Type} (ops : CircBufferOps β) (chip : Bridge)
    (channel : Nat) (txBuf : β) (numBytesToWrite : Nat) (wire : Wire) : Nat × Wire × β :=
  let r := writeLoop ops chip channel txBuf numBytesToWrite 0 0 0 wire
  let txBuf1 := ops.cb_advance_tail txBuf r.1
  (if 0 = r.2.1 then r.1 else 0, r.2.2, txBuf1)

/-! ### Invariant lemmas -/

theorem capMinusOne_eq (c : Nat) (h1 : 1 ≤ c) (h2 : c < SIZE_MOD) :
    (c + SIZE_MOD - 1) % SIZE_MOD = c - 1 := by
  unfold SIZE_MOD at *
  omega

theorem QInv_reset (c : Nat) (q : Queue) (h1 : 1 ≤ c) (h2 : c < SIZE_MOD)
    (hcap : q.capacity = c) (hlen : q.data.length = c) : QInv c (q_reset q) := by
  refine ⟨hcap, hlen, ?_, ?_, ?_, h2⟩
  · simp [q_reset]
  · show 0 < c
    omega
  · intro hf
    simp [q_reset] at hf

theorem QInv_push (c : Nat) (q : Queue) (v : Nat) (h : QInv c q) : QInv c (q_push q v) := by
  obtain ⟨hcap, hlen, hrw, hwlt, hfull, hsz⟩ := h
  have hc1 : 1 ≤ c := by omega
  have hcm : (q.capacity + SIZE_MOD - 1) % SIZE_MOD = c - 1 := by
    rw [hcap]; exact capMinusOne_eq c hc1 hsz
  unfold q_push
  simp only [hcm]
  split
  · exact ⟨hcap, hlen, hrw, hwlt, hfull, hsz⟩
  · split
    · refine ⟨hcap, ?_, hrw, hwlt, ?_, hsz⟩
      · simp [hlen]
      · intro _; assumption
    · rename_i h1 h2
      have hw : (q.write + 1) % SIZE_MOD = q.write + 1 := by
        unfold SIZE_MOD at *; omega
      refine ⟨hcap, ?_, ?_, ?_, ?_, hsz⟩
      · simp [hlen]
      · simp only [hw]; omega
      · simp only [hw]; omega
      · intro hf; simp at hf

theorem QInv_pop (c : Nat) (q : Queue) (h : QInv c q) : QInv c (q_pop q).2 := by
  obtain ⟨hcap, hlen, hrw, hwlt, hfull, hsz⟩ := h
  have hc1 : 1 ≤ c := by omega
  have hcm : (q.capacity + SIZE_MOD - 1) % SIZE_MOD = c - 1 := by
    rw [hcap]; exact capMinusOne_eq c hc1 hsz
  unfold q_pop
  simp only [hcm]
  split
  · exact ⟨hcap, hlen, hrw, hwlt, hfull, hsz⟩
  · split
    · exact QInv_reset c q hc1 hsz hcap hlen
    · rename_i h1 h2
      have hr : (q.read + 1) % SIZE_MOD = q.read + 1 := by
        unfold SIZE_MOD at *; omega
      refine ⟨hcap, hlen, ?_, hwlt, hfull, hsz⟩
      simp only [hr]; omega

theorem QInv_apply (c : Nat) (op : QOp) (q : Queue) (h : QInv c q) : QInv c (op.apply q) := by
  cases op with
  | push v => exact QInv_push c q v h
  | pop => exact QInv_pop c q h
  | reset => exact QInv_reset c q (by have := h.wlt; omega) h.csz h.cap h.len

/-! ### The staged slots under each call -/

theorem getD_set_other (l : List Nat) (w i v : Nat) (h : i ≠ w) :
    (l.set w v).getD i 0 = l.getD i 0 := by
  simp [List.getD_eq_getElem?_getD, List.getElem?_set, Ne.symm h]

theorem getD_set_same (l : List Nat) (w v : Nat) (h : w < l.length) :
    (l.set w v).getD w 0 = v := by
  simp [List.getD_eq_getElem?_getD, List.getElem?_set, h]

theorem map_range_set (l : List Nat) (w v r n : Nat) (h : r + n ≤ w) :
    (List.range' r n).map (fun i => (l.set w v).getD i 0)
      = (List.range' r n).map (fun i => l.getD i 0) := by
  apply List.map_congr_left
  intro i hi
  have hi2 := List.mem_range'_1.mp hi
  exact getD_set_other l w i v (by omega)

theorem slots_push (c : Nat) (q : Queue) (v : Nat) (h : QInv c q) :
    slots (q_push q v) = if q_pushAccepts q = true then slots q ++ [v] else slots q := by
  obtain ⟨hcap, hlen, hrw, hwlt, hfull, hsz⟩ := h
  have hc1 : 1 ≤ c := by omega
  have hcm : (q.capacity + SIZE_MOD - 1) % SIZE_MOD = c - 1 := by
    rw [hcap]; exact capMinusOne_eq c hc1 hsz
  unfold q_push q_pushAccepts
  simp only [hcm]
  by_cases hw : q.write = c - 1
  · cases hf : q.isQueueFull
    · have hn : c - q.read = (q.write - q.read) + 1 := by omega
      have hidx : q.read + (q.write - q.read) = q.write := by omega
      simp [hw.symm, slots, hf, hcap, hn, List.range'_concat, hidx, map_range_set,
        getD_set_same, hlen, hwlt]
      intro a _ ha
      rw [List.getElem?_set_ne (by omega)]
    · simp [hw, hf]
  · have hnf : q.isQueueFull = false := by
      cases hf : q.isQueueFull
      · rfl
      · exact absurd (hfull hf) hw
    have hws : (q.write + 1) % SIZE_MOD = q.write + 1 := by
      unfold SIZE_MOD at *; omega
    have hn : q.write + 1 - q.read = (q.write - q.read) + 1 := by omega
    have hidx : q.read + (q.write - q.read) = q.write := by omega
    simp [hw, slots, hnf, hws, hn, List.range'_concat, hidx, map_range_set,
      getD_set_same, hlen, hwlt]
    intro a _ ha
    rw [List.getElem?_set_ne (by omega)]

theorem slots_pop (c : Nat) (q : Queue) (h : QInv c q) (h2 : 2 ≤ c) :
    slots (q_pop q).2 = (slots q).tail ∧
      ∀ v rest, slots q = v :: rest → (q_pop q).1 = v := by
  obtain ⟨hcap, hlen, hrw, hwlt, hfull, hsz⟩ := h
  have hc1 : 1 ≤ c := by omega
  have hcm : (q.capacity + SIZE_MOD - 1) % SIZE_MOD = c - 1 := by
    rw [hcap]; exact capMinusOne_eq c hc1 hsz
  unfold q_pop
  simp only [hcm]
  by_cases h0 : q.write = 0 ∧ q.read = 0
  · have hnf : q.isQueueFull = false := by
      cases hf : q.isQueueFull
      · rfl
      · have := hfull hf; omega
    simp [h0, slots, hnf]
  · rw [if_neg h0]
    by_cases hwr : q.write = q.read
    · rw [if_pos (Or.inl hwr)]
      cases hf : q.isQueueFull
      · simp [slots, q_reset, hf, hwr]
      · have hw := hfull hf
        have hn : q.capacity - q.read = 1 := by omega
        simp [slots, q_reset, hf, hn]
    · have hlt : q.read < q.write := by omega
      have hne : ¬ (q.write = q.read ∨ (q.isQueueFull = true ∧ q.read = c - 1)) := by
        rintro (h | ⟨hf, hr⟩)
        · exact hwr h
        · have := hfull hf; omega
      rw [if_neg hne]
      have hrs : (q.read + 1) % SIZE_MOD = q.read + 1 := by
        unfold SIZE_MOD at *; omega
      cases hf : q.isQueueFull
      · have hn : q.write - q.read = (q.write - (q.read + 1)) + 1 := by omega
        simp only [slots, hf, hrs, Bool.false_eq_true, if_false]
        rw [hn, List.range'_succ]
        simp
      · have hn : q.capacity - q.read = (q.capacity - (q.read + 1)) + 1 := by omega
        simp only [slots, hf, hrs, if_true]
        rw [hn, List.range'_succ]
        simp

theorem slots_reset (q : Queue) : slots (q_reset q) = [] := by
  simp [slots, q_reset]

theorem stagedAfter_slots (c : Nat) (op : QOp) (q : Queue) (h : QInv c q) (h2 : 2 ≤ c) :
    stagedAfter op q (slots q) = slots (op.apply q) := by
  cases op with
  | push v => simp only [stagedAfter, QOp.apply, slots_push c q v h]
  | pop => simp only [stagedAfter, QOp.apply, (slots_pop c q h h2).1]
  | reset => simp only [stagedAfter, QOp.apply, slots_reset]

theorem runOps_QInv (c : Nat) (ops : List QOp) :
    ∀ s : Queue × List Nat, QInv c s.1 → QInv c (runOps ops s).1 := by
  induction ops with
  | nil => intro s hs; exact hs
  | cons op ops ih =>
    intro s hs
    exact ih (op.apply s.1, stagedAfter op s.1 s.2) (QInv_apply c op s.1 hs)

theorem runOps_slots (c : Nat) (h2 : 2 ≤ c) (ops : List QOp) :
    ∀ s : Queue × List Nat, QInv c s.1 → s.2 = slots s.1 →
      (runOps ops s).2 = slots (runOps ops s).1 := by
  induction ops with
  | nil => intro s _ hs; exact hs
  | cons op ops ih =>
    intro s hs hsl
    apply ih (op.apply s.1, stagedAfter op s.1 s.2) (QInv_apply c op s.1 hs)
    show stagedAfter op s.1 s.2 = slots (op.apply s.1)
    rw [hsl]
    exact stagedAfter_slots c op s.1 hs h2

/-- What an accepted `q_push` does to the positions and the flag. -/
theorem push_fields (c : Nat) (q : Queue) (v : Nat) (h : QInv c q)
    (hnf : q.isQueueFull = false) :
    (q_push q v).read = q.read ∧
      (q.write = c - 1 → (q_push q v).isQueueFull = true ∧ (q_push q v).write = q.write) ∧
      (q.write ≠ c - 1 →
        (q_push q v).isQueueFull = false ∧ (q_push q v).write = q.write + 1) := by
  obtain ⟨hcap, hlen, hrw, hwlt, hfull, hsz⟩ := h
  have hc1 : 1 ≤ c := by omega
  have hcm : (q.capacity + SIZE_MOD - 1) % SIZE_MOD = c - 1 := by
    rw [hcap]; exact capMinusOne_eq c hc1 hsz
  have hws : (q.write + 1) % SIZE_MOD = q.write + 1 := by
    unfold SIZE_MOD at *; omega
  unfold q_push
  simp only [hcm, hnf]
  by_cases hw : q.write = c - 1
  · simp [hw]
  · simp [hw, hws]

theorem pushAll_spec (c : Nat) (vs : List Nat) :
    ∀ q : Queue, QInv c q → q.isQueueFull = false → q.write + vs.length ≤ c →
      QInv c (q_pushAll q vs) ∧ slots (q_pushAll q vs) = slots q ++ vs ∧
      (q_pushAll q vs).read = q.read ∧
      (q_pushAll q vs).isQueueFull = decide (q.write + vs.length = c) := by
  induction vs with
  | nil =>
    intro q hq hnf hle
    have := hq.wlt
    refine ⟨hq, by simp [q_pushAll], rfl, ?_⟩
    simp only [q_pushAll, hnf, List.length_nil, Nat.add_zero]
    symm
    apply decide_eq_false
    omega
  | cons v vs ih =>
    intro q hq hnf hle
    have hq1 := QInv_push c q v hq
    have hsl := slots_push c q v hq
    have hacc : q_pushAccepts q = true := by simp [q_pushAccepts, hnf]
    rw [if_pos hacc] at hsl
    obtain ⟨hr, hA, hB⟩ := push_fields c q v hq hnf
    simp only [List.length_cons] at hle
    show QInv c (q_pushAll (q_push q v) vs) ∧ slots (q_pushAll (q_push q v) vs) = _ ∧
      (q_pushAll (q_push q v) vs).read = _ ∧ (q_pushAll (q_push q v) vs).isQueueFull = _
    by_cases hw : q.write = c - 1
    · have hnil : vs = [] := by
        apply List.eq_nil_of_length_eq_zero
        have := hq.wlt
        omega
      subst hnil
      obtain ⟨hf1, hw1⟩ := hA hw
      have := hq.wlt
      refine ⟨hq1, by simp [q_pushAll, hsl], hr, ?_⟩
      simp only [q_pushAll, hf1, List.length_cons, List.length_nil]
      symm
      apply decide_eq_true
      omega
    · obtain ⟨hf1, hw1⟩ := hB hw
      obtain ⟨i1, i2, i3, i4⟩ := ih (q_push q v) hq1 hf1 (by rw [hw1]; omega)
      refine ⟨i1, by rw [i2, hsl]; simp, by rw [i3, hr], ?_⟩
      rw [i4, hw1]
      simp only [List.length_cons]
      congr 1
      apply propext
      constructor <;> intro h <;> omega

theorem popN_spec (c : Nat) (h2 : 2 ≤ c) (n : Nat) :
    ∀ q : Queue, QInv c q → n ≤ (slots q).length →
      (q_popN q n).1 = (slots q).take n ∧ QInv c (q_popN q n).2 ∧
      slots (q_popN q n).2 = (slots q).drop n := by
  induction n with
  | zero =>
    intro q hq _
    exact ⟨by simp [q_popN], hq, by simp [q_popN]⟩
  | succ n ih =>
    intro q hq hn
    obtain ⟨htail, hhead⟩ := slots_pop c q hq h2
    cases hs : slots q with
    | nil => rw [hs] at hn; simp at hn
    | cons v rest =>
      rw [hs] at hn htail
      simp only [List.length_cons, List.tail_cons] at hn htail
      have hv := hhead v rest hs
      obtain ⟨i1, i2, i3⟩ := ih (q_pop q).2 (QInv_pop c q hq) (by rw [htail]; omega)
      refine ⟨?_, i2, ?_⟩
      · show (q_pop q).1 :: (q_popN (q_pop q).2 n).1 = _
        rw [i1, hv, htail]
        rfl
      · show slots (q_popN (q_pop q).2 n).2 = _
        rw [i3, htail]
        rfl

/-- In a state of the invariant whose full flag is set, `q_push` changes nothing. -/
theorem push_noop_of_full (c : Nat) (q : Queue) (v : Nat) (h : QInv c q)
    (hf : q.isQueueFull = true) : q_push q v = q := by
  have hc1 : 1 ≤ c := by have := h.wlt; omega
  have hcm : (q.capacity + SIZE_MOD - 1) % SIZE_MOD = c - 1 := by
    rw [h.cap]; exact capMinusOne_eq c hc1 h.csz
  unfold q_push
  rw [if_pos ⟨by rw [hcm]; exact h.full hf, hf⟩]

/-- A `q_pop` made with `read` below `write` keeps the write position and the flag. -/
theorem pop_fields (c : Nat) (q : Queue) (h : QInv c q) (hlt : q.read < q.write) :
    (q_pop q).2.isQueueFull = q.isQueueFull ∧ (q_pop q).2.write = q.write := by
  obtain ⟨hcap, hlen, hrw, hwlt, hfull, hsz⟩ := h
  have hcm : (q.capacity + SIZE_MOD - 1) % SIZE_MOD = c - 1 := by
    rw [hcap]; exact capMinusOne_eq c (by omega) hsz
  have h0 : ¬ (q.write = 0 ∧ q.read = 0) := by omega
  have hne : ¬ (q.write = q.read ∨ (q.isQueueFull = true ∧ q.read = c - 1)) := by
    rintro (h | ⟨hf, hr⟩)
    · omega
    · have := hfull hf; omega
  unfold q_pop
  simp only [hcm]
  rw [if_neg h0, if_neg hne]
  exact ⟨rfl, rfl⟩

/-- A reset queue after `capacity` pushes: invariant, staged slots, positions, flag. -/
theorem pushAll_full (c : Nat) (q0 : Queue) (hc : 1 ≤ c) (hsz : c < SIZE_MOD)
    (hcap : q0.capacity = c) (hlen : q0.data.length = c) (vs : List Nat)
    (hvs : vs.length = c) :
    QInv c (q_pushAll (q_reset q0) vs) ∧ slots (q_pushAll (q_reset q0) vs) = vs ∧
      (q_pushAll (q_reset q0) vs).read = 0 ∧
      (q_pushAll (q_reset q0) vs).isQueueFull = true := by
  have hinit : QInv c (q_reset q0) := QInv_reset c q0 hc hsz hcap hlen
  obtain ⟨p1, p2, p3, p4⟩ := pushAll_spec c vs (q_reset q0) hinit rfl
    (by simp only [q_reset]; omega)
  refine ⟨p1, by rw [p2, slots_reset, List.nil_append], p3, ?_⟩
  rw [p4]
  apply decide_eq_true
  simp only [q_reset]
  omega

/-! ## Claims on the queue -/

/-- C1: FIFO order. For every capacity `c ≥ 2` and every sequence of calls made on a reset
queue, a `q_pop` made while a value is staged returns the oldest staged value; and for
every `n` with `1 ≤ n ≤ c`, pushing `n` values and popping `n` times returns the values
in the order they were pushed. -/
theorem C1_fifo_order (c : Nat) (q0 : Queue) (hc : 2 ≤ c) (hsz : c < SIZE_MOD)
    (hcap : q0.capacity = c) (hlen : q0.data.length = c) :
    (∀ (ops : List QOp) (v : Nat) (rest : List Nat),
        (runOps ops (q_reset q0, [])).2 = v :: rest →
          (q_pop (runOps ops (q_reset q0, [])).1).1 = v) ∧
    (∀ vs : List Nat, 1 ≤ vs.length → vs.length ≤ c →
        (q_popN (q_pushAll (q_reset q0) vs) vs.length).1 = vs) := by
  have hinit : QInv c (q_reset q0) := QInv_reset c q0 (by omega) hsz hcap hlen
  constructor
  · intro ops v rest hst
    have hq := runOps_QInv c ops (q_reset q0, []) hinit
    have hsl := runOps_slots c hc ops (q_reset q0, []) hinit (slots_reset q0).symm
    rw [hsl] at hst
    exact (slots_pop c _ hq hc).2 v rest hst
  · intro vs _ hle
    obtain ⟨p1, p2, _, _⟩ := pushAll_spec c vs (q_reset q0) hinit rfl
      (by simp only [q_reset]; omega)
    rw [slots_reset, List.nil_append] at p2
    have := (popN_spec c hc vs.length (q_pushAll (q_reset q0) vs) p1 (by rw [p2])).1
    rw [this, p2, List.take_length]

/-- C1 at capacity 4: push 1, 2, 3, 4 and pop four times. -/
theorem C1_fifo_order_witness :
    (q_popN (q_pushAll queue4 [1, 2, 3, 4]) 4).1 = [1, 2, 3, 4] :=
  (C1_fifo_order 4 storage4 (by decide) (by decide) rfl rfl).2 [1, 2, 3, 4]
    (by decide) (by decide)

/-- C4 as stated fails at capacity 4: after push 1, 2, 3, 4 and one pop it is not the case
that the pop returned 1, the count is 3, the full flag is clear and a push of 5 is stored
bringing the count back to 4. -/
theorem C4_counterexample :
    ¬ ((q_pop (q_pushAll queue4 [1, 2, 3, 4])).1 = 1 ∧
        q_numMsgsInQueue (q_pop (q_pushAll queue4 [1, 2, 3, 4])).2 = 3 ∧
        (q_pop (q_pushAll queue4 [1, 2, 3, 4])).2.isQueueFull = false ∧
        5 ∈ (q_push (q_pop (q_pushAll queue4 [1, 2, 3, 4])).2 5).data ∧
        q_numMsgsInQueue (q_push (q_pop (q_pushAll queue4 [1, 2, 3, 4])).2 5) = 4) := by
  decide

/-- C4 (amended): for every capacity `c ≥ 2`, after a reset queue has been filled with `c`
values the count is `c`, one `q_pop` returns the first value pushed, and a following
`q_push` is not accepted: it leaves the queue as the pop left it, for every value. -/
theorem C4_pop_from_full_then_push (c : Nat) (q0 : Queue) (hc : 2 ≤ c) (hsz : c < SIZE_MOD)
    (hcap : q0.capacity = c) (hlen : q0.data.length = c) (vs : List Nat)
    (hvs : vs.length = c) :
    q_numMsgsInQueue (q_pushAll (q_reset q0) vs) = c ∧
      vs.head? = some (q_pop (q_pushAll (q_reset q0) vs)).1 ∧
      ∀ v : Nat, q_push (q_pop (q_pushAll (q_reset q0) vs)).2 v
        = (q_pop (q_pushAll (q_reset q0) vs)).2 := by
  obtain ⟨p1, p2, p3, p4⟩ := pushAll_full c q0 (by omega) hsz hcap hlen vs hvs
  have hw := p1.full p4
  refine ⟨by simp [q_numMsgsInQueue, p4, p1.cap], ?_, ?_⟩
  · cases vs with
    | nil => simp at hvs; omega
    | cons v rest =>
      have := (slots_pop c _ p1 hc).2 v rest p2
      simp [this]
  · intro v
    obtain ⟨f1, f2⟩ := pop_fields c _ p1 (by omega)
    exact push_noop_of_full c _ v (QInv_pop c _ p1) (by rw [f1, p4])

/-- C4 (amended) at capacity 4: push 1, 2, 3, 4, pop, push 5. -/
theorem C4_pop_from_full_then_push_witness :
    q_numMsgsInQueue (q_pushAll queue4 [1, 2, 3, 4]) = 4 ∧
      [1, 2, 3, 4].head? = some (q_pop (q_pushAll queue4 [1, 2, 3, 4])).1 ∧
      ∀ v : Nat, q_push (q_pop (q_pushAll queue4 [1, 2, 3, 4])).2 v
        = (q_pop (q_pushAll queue4 [1, 2, 3, 4])).2 :=
  C4_pop_from_full_then_push 4 storage4 (by decide) (by decide) rfl rfl [1, 2, 3, 4] rfl

/-- C5: push on a full queue is a no-op. In every state reached from a reset queue of
capacity `c ≥ 1` in which the full flag is set, `q_push` leaves the whole queue record
(write, read, flag, capacity and every data slot) unchanged; in particular the push that
follows `c` consecutive pushes changes nothing and the count stays `c`. -/
theorem C5_push_on_full_is_noop (c : Nat) (q0 : Queue) (hc : 1 ≤ c) (hsz : c < SIZE_MOD)
    (hcap : q0.capacity = c) (hlen : q0.data.length = c) :
    (∀ (ops : List QOp) (v : Nat),
        (runOps ops (q_reset q0, [])).1.isQueueFull = true →
          q_push (runOps ops (q_reset q0, [])).1 v = (runOps ops (q_reset q0, [])).1) ∧
    (∀ (vs : List Nat) (v : Nat), vs.length = c →
        q_push (q_pushAll (q_reset q0) vs) v = q_pushAll (q_reset q0) vs ∧
        q_numMsgsInQueue (q_push (q_pushAll (q_reset q0) vs) v) = c) := by
  have hinit : QInv c (q_reset q0) := QInv_reset c q0 hc hsz hcap hlen
  constructor
  · intro ops v hf
    exact push_noop_of_full c _ v (runOps_QInv c ops (q_reset q0, []) hinit) hf
  · intro vs v hvs
    obtain ⟨p1, _, _, p4⟩ := pushAll_full c q0 hc hsz hcap hlen vs hvs
    have hno := push_noop_of_full c _ v p1 p4
    refine ⟨hno, ?_⟩
    rw [hno]
    simp [q_numMsgsInQueue, p4, p1.cap]

/-- C5 at capacity 4: the fifth push changes nothing and the count stays 4. -/
theorem C5_push_on_full_is_noop_witness :
    q_push (q_pushAll queue4 [1, 2, 3, 4]) 5 = q_pushAll queue4 [1, 2, 3, 4] ∧
      q_numMsgsInQueue (q_push (q_pushAll queue4 [1, 2, 3, 4]) 5) = 4 :=
  (C5_push_on_full_is_noop 4 storage4 (by decide) (by decide) rfl rfl).2 [1, 2, 3, 4] 5 rfl

/-- C6 at capacity 4 with one push and one pop: the pop returns the pushed value, but the
positions are left at 1 instead of 0 and the next push stores its value at index 1. -/
theorem C6_drain_below_capacity :
    (q_popN (q_pushAll queue4 [7]) 1).1 = [7] ∧
      (q_popN (q_pushAll queue4 [7]) 1).2.read = 1 ∧
      (q_popN (q_pushAll queue4 [7]) 1).2.write = 1 ∧
      q_numMsgsInQueue (q_popN (q_pushAll queue4 [7]) 1).2 = 0 ∧
      (q_push (q_popN (q_pushAll queue4 [7]) 1).2 9).data = [7, 9, 0, 0] := by
  decide

/-- C7 at capacity 2 after push 1, pop, push 2: the full flag is set and the count is
reported as 2 although a single value is staged. -/
theorem C7_full_flag_with_one_staged :
    (runOps [.push 1, .pop, .push 2] (q_reset storage2, [])).1.isQueueFull = true ∧
      (runOps [.push 1, .pop, .push 2] (q_reset storage2, [])).2 = [2] ∧
      q_numMsgsInQueue (runOps [.push 1, .pop, .push 2] (q_reset storage2, [])).1 = 2 := by
  decide

/-! ## Lemmas on the driver -/

theorem lowByte_eq (x : Nat) : x % 65536 &&& 0xFF = x % 256 := by
  have h := Nat.and_pow_two_sub_one_eq_mod (x % 65536) 8
  norm_num at h
  rw [h]

theorem invalid_of_ne (channel : Nat) (h0 : channel ≠ UART_0) (h1 : channel ≠ UART_1) :
    UARTChannelIsInvalid channel = true := by
  simp [UARTChannelIsInvalid, h0, h1]

theorem valid_of_mem (channel : Nat) (h : channel = UART_0 ∨ channel = UART_1) :
    UARTChannelIsInvalid channel = false := by
  rcases h with rfl | rfl <;> decide

/-- An OR with a payload byte below a multiple of 256 is a sum. -/
theorem or_byte (k value : Nat) (hk : k % 256 = 0) (hv : value < 256) :
    k ||| value = k + value := by
  obtain ⟨a, rfl⟩ : ∃ a, k = 2 ^ 8 * a := ⟨k / 256, by omega⟩
  exact (Nat.mul_add_lt_is_or (by simpa using hv) a).symm

theorem or_fields : ∀ j, j < 32 →
    (0x8000 ||| 0 ||| 256 * j = 0x8000 + 256 * j) ∧
    (0x8000 ||| 0x2000 ||| 256 * j = 0x8000 + 0x2000 + 256 * j) ∧
    (0 ||| 0 ||| 256 * j = 256 * j) ∧ (0 ||| 0x2000 ||| 256 * j = 0x2000 + 256 * j) := by
  decide

theorem register_codes_aligned :
    ∀ r ∈ MAX3109_REGISTER_ADDRESS_VALUE, r % 256 = 0 := by
  decide

/-- The word `MAXreadRegisterValue` sends and the value it returns, for a valid channel. -/
theorem read_valid (chip : Bridge) (channel maxRegister : Nat) (wire : Wire)
    (hch : channel = UART_0 ∨ channel = UART_1) (hr : maxRegister % 256 = 0)
    (hfit : maxRegister ≤ 0x1F00) :
    MAXreadRegisterValue chip channel maxRegister wire
      = (chip (wire ++ [channel + maxRegister]) % 256, wire ++ [channel + maxRegister]) := by
  obtain ⟨j, rfl⟩ : ∃ j, maxRegister = 256 * j := ⟨maxRegister / 256, by omega⟩
  have hj : j < 32 := by omega
  obtain ⟨_, _, f3, f4⟩ := or_fields j hj
  have hw : (READ_MAX ||| channel ||| 256 * j) % 65536 = channel + 256 * j := by
    rcases hch with rfl | rfl
    · simp only [READ_MAX, UART_0, f3]; omega
    · simp only [READ_MAX, UART_1, f4]; omega
  simp only [MAXreadRegisterValue, valid_of_mem channel hch, SPIreadWriteWord, hw, lowByte_eq]
  simp

/-- The word `MAXwriteRegisterValue` sends, for a valid channel and a payload byte. -/
theorem write_valid (chip : Bridge) (channel maxRegister value : Nat) (wire : Wire)
    (hch : channel = UART_0 ∨ channel = UART_1) (hr : maxRegister % 256 = 0)
    (hfit : maxRegister ≤ 0x1F00) (hv : value < 256) :
    MAXwriteRegisterValue chip channel maxRegister value wire
      = (0, wire ++ [0x8000 + channel + maxRegister + value]) := by
  obtain ⟨j, rfl⟩ : ∃ j, maxRegister = 256 * j := ⟨maxRegister / 256, by omega⟩
  have hj : j < 32 := by omega
  obtain ⟨f1, f2, _, _⟩ := or_fields j hj
  have hw : (WRITE_MAX ||| channel ||| 256 * j ||| value) % 65536
      = 0x8000 + channel + 256 * j + value := by
    rcases hch with rfl | rfl
    · simp only [WRITE_MAX, UART_0, f1]
      rw [or_byte _ _ (by omega) hv]; omega
    · simp only [WRITE_MAX, UART_1, f2]
      rw [or_byte _ _ (by omega) hv]; omega
  simp only [MAXwriteRegisterValue, valid_of_mem channel hch, SPIreadWriteWord, hw]
  simp

/-- The flag 1 accumulated by AND with four bytes stays 1 exactly when all four are odd. -/
theorem and4_spec (a b c d : Nat) :
    1 &&& a &&& b &&& c &&& d
      = if a % 2 = 1 ∧ b % 2 = 1 ∧ c % 2 = 1 ∧ d % 2 = 1 then 1 else 0 := by
  rcases Nat.mod_two_eq_zero_or_one a with ha | ha <;>
  rcases Nat.mod_two_eq_zero_or_one b with hb | hb <;>
  rcases Nat.mod_two_eq_zero_or_one c with hc | hc <;>
  rcases Nat.mod_two_eq_zero_or_one d with hd | hd <;>
  simp [Nat.one_and_eq_mod_two, ha, hb, hc, hd]

/-- The known-value group sends the four read words DIVLSB and PLLConfig on UART_0, then
on UART_1, and yields 1 exactly when bit 0 of the low byte of each of the four answers
is set. -/
theorem knownValueReadback_spec (chip : Bridge) (wire : Wire) :
    knownValueReadback chip wire
      = (if chip (wire ++ [0x1C00]) % 256 % 2 = 1 ∧
            chip (wire ++ [0x1C00, 0x1A00]) % 256 % 2 = 1 ∧
            chip (wire ++ [0x1C00, 0x1A00, 0x3C00]) % 256 % 2 = 1 ∧
            chip (wire ++ [0x1C00, 0x1A00, 0x3C00, 0x3A00]) % 256 % 2 = 1 then 1 else 0,
         wire ++ [0x1C00, 0x1A00, 0x3C00, 0x3A00]) := by
  simp only [knownValueReadback,
    read_valid chip UART_0 max3109_DIVLSB _ (Or.inl rfl) (by decide) (by decide),
    read_valid chip UART_0 max3109_PLLConfig _ (Or.inl rfl) (by decide) (by decide),
    read_valid chip UART_1 max3109_DIVLSB _ (Or.inr rfl) (by decide) (by decide),
    read_valid chip UART_1 max3109_PLLConfig _ (Or.inr rfl) (by decide) (by decide)]
  simp only [UART_0, UART_1, max3109_DIVLSB, max3109_PLLConfig, Nat.reduceAdd,
    List.append_assoc, List.singleton_append, List.nil_append, List.cons_append]
  rw [and4_spec]

/-- The flag 1 accumulated by AND with four comparison results (each 0 or 1) stays 1
exactly when all four comparisons hold. -/
theorem and4_flags (p q r t : Prop) [Decidable p] [Decidable q] [Decidable r] [Decidable t] :
    1 &&& (if p then 1 else 0) &&& (if q then 1 else 0) &&& (if r then 1 else 0)
        &&& (if t then 1 else 0)
      = if p ∧ q ∧ r ∧ t then 1 else 0 := by
  by_cases hp : p <;> by_cases hq : q <;> by_cases hr : r <;> by_cases ht : t <;>
  simp [hp, hq, hr, ht]

/-- The configuration group sends the four configuration writes and the four readbacks,
and yields 1 exactly when the clock-source readback masked with 0x8C equals the clock
byte, the PLL readback equals the PLL byte and both line-control readbacks equal the line
byte. -/
theorem configWriteVerify_spec (chip : Bridge) (pll clk line : Nat) (wire : Wire)
    (hp : pll < 256) (hc : clk < 256) (hl : line < 256) :
    configWriteVerify chip pll clk line wire
      = (if clk = (chip (wire ++ [0x9E00 + clk, 0x9A00 + pll, 0x8B00 + line, 0xAB00 + line,
                0x1E00]) % 256 &&& 0x8C) ∧
            pll = chip (wire ++ [0x9E00 + clk, 0x9A00 + pll, 0x8B00 + line, 0xAB00 + line,
                0x1E00, 0x1A00]) % 256 ∧
            line = chip (wire ++ [0x9E00 + clk, 0x9A00 + pll, 0x8B00 + line, 0xAB00 + line,
                0x1E00, 0x1A00, 0x0B00]) % 256 ∧
            line = chip (wire ++ [0x9E00 + clk, 0x9A00 + pll, 0x8B00 + line, 0xAB00 + line,
                0x1E00, 0x1A00, 0x0B00, 0x2B00]) % 256 then 1 else 0,
         wire ++ [0x9E00 + clk, 0x9A00 + pll, 0x8B00 + line, 0xAB00 + line,
            0x1E00, 0x1A00, 0x0B00, 0x2B00]) := by
  simp only [configWriteVerify,
    write_valid chip UART_0 max3109CLKSource clk _ (Or.inl rfl) (by decide) (by decide) hc,
    write_valid chip UART_0 max3109_PLLConfig pll _ (Or.inl rfl) (by decide) (by decide) hp,
    write_valid chip UART_0 max3109_LCR line _ (Or.inl rfl) (by decide) (by decide) hl,
    write_valid chip UART_1 max3109_LCR line _ (Or.inr rfl) (by decide) (by decide) hl,
    read_valid chip UART_0 max3109CLKSource _ (Or.inl rfl) (by decide) (by decide),
    read_valid chip UART_0 max3109_PLLConfig _ (Or.inl rfl) (by decide) (by decide),
    read_valid chip UART_0 max3109_LCR _ (Or.inl rfl) (by decide) (by decide),
    read_valid chip UART_1 max3109_LCR _ (Or.inr rfl) (by decide) (by decide)]
  simp only [UART_0, UART_1, max3109CLKSource, max3109_PLLConfig, max3109_LCR, CLKSourceMASK,
    Nat.reduceAdd, List.append_assoc, List.singleton_append, List.nil_append,
    List.cons_append]
  rw [and4_flags]

set_option maxRecDepth 100000 in
theorem byte_bits : ∀ b, b < 256 →
    ((if 0x40 = b &&& 0x40 then true else false) = b.testBit 6) ∧
    ((if 0x01 = b &&& 0x01 then true else false) = b.testBit 0) := by
  decide

/-! ## Claims on the driver -/

/-- C2 at a bridge whose every answer is 0xFFFF, with configuration bytes 0xFF, 0x8C,
0xFF: `MAXInitializeMAX3109` returns 1 although no exchange ever answers a low byte
equal to the known value 1 (every low byte is 0xFF), after 4 reset writes, one group of
4 known-value reads and one group of 4 writes and 4 readbacks. -/
theorem C2_known_value_check_passes_on_0xFF :
    (MAXInitializeMAX3109 allOnesBridge 0xFF 0x8C 0xFF []).1 = 1 ∧
      (MAXInitializeMAX3109 allOnesBridge 0xFF 0x8C 0xFF []).2.length = 16 ∧
      (knownValueReadback allOnesBridge [0x8A01, 0xAA01, 0x8A00, 0xAA00]).1 = 1 ∧
      ∀ (w : Nat) (wire : Wire), (SPIreadWriteWord allOnesBridge w wire).1 &&& 0xFF = 0xFF := by
  refine ⟨by decide, by decide, by decide, ?_⟩
  intro w wire
  simp only [SPIreadWriteWord, allOnesBridge]
  decide

/-- C3: for every channel value other than UART_0 and UART_1, each public operation
returns its invalid-channel result (1 for pop, 1 for push with any value, 0xFF for the
fill level with any selector, false for receive-ready) and leaves the wire as it was:
no transaction is issued. -/
theorem C3_invalid_channel (chip : Bridge) (channel valueToWrite fifoBuffer : Nat)
    (wire : Wire) (h0 : channel ≠ UART_0) (h1 : channel ≠ UART_1) :
    MAXPopSingleValueFromUARTRxFIFO chip channel wire = (1, wire) ∧
      MAXPushSingleValueToUARTTxFIFO chip channel valueToWrite wire = (1, wire) ∧
      MAXGetUARTFIFOLevel chip channel fifoBuffer wire = (0xFF, wire) ∧
      MAXIsUARTReceiveReadyToRead chip channel wire = (false, wire) := by
  have hinv := invalid_of_ne channel h0 h1
  refine ⟨?_, ?_, ?_, ?_⟩
  · simp [MAXPopSingleValueFromUARTRxFIFO, hinv]
  · simp [MAXPushSingleValueToUARTTxFIFO, hinv]
  · simp [MAXGetUARTFIFOLevel, hinv]
  · simp [MAXIsUARTReceiveReadyToRead, hinv]

/-- C3 at the channel value 0x4000, after two words already on the wire. -/
theorem C3_invalid_channel_witness :
    MAXPopSingleValueFromUARTRxFIFO allOnesBridge 0x4000 [0x8A01, 0xAA01]
        = (1, [0x8A01, 0xAA01]) ∧
      MAXPushSingleValueToUARTTxFIFO allOnesBridge 0x4000 0x55 [0x8A01, 0xAA01]
        = (1, [0x8A01, 0xAA01]) ∧
      MAXGetUARTFIFOLevel allOnesBridge 0x4000 max3109_RxFIFOLvl [0x8A01, 0xAA01]
        = (0xFF, [0x8A01, 0xAA01]) ∧
      MAXIsUARTReceiveReadyToRead allOnesBridge 0x4000 [0x8A01, 0xAA01]
        = (false, [0x8A01, 0xAA01]) :=
  C3_invalid_channel allOnesBridge 0x4000 0x55 max3109_RxFIFOLvl [0x8A01, 0xAA01]
    (by decide) (by decide)

/-- C8: `MAXGetUARTFIFOLevel` returns 0xFF without a transaction when the selector is
neither level register; for a level register and a valid channel it issues exactly one
read of that register and returns the low byte of the answer when it is at most 128 and
0xFF otherwise; in every case the result is at most 128 or exactly 0xFF. -/
theorem C8_fifo_level (chip : Bridge) (channel fifoBuffer : Nat) (wire : Wire) :
    (fifoBuffer ≠ max3109_TxFIFOLvl → fifoBuffer ≠ max3109_RxFIFOLvl →
        MAXGetUARTFIFOLevel chip channel fifoBuffer wire = (0xFF, wire)) ∧
    (fifoBuffer = max3109_TxFIFOLvl ∨ fifoBuffer = max3109_RxFIFOLvl →
      channel = UART_0 ∨ channel = UART_1 →
        MAXGetUARTFIFOLevel chip channel fifoBuffer wire
          = (if chip (wire ++ [channel + fifoBuffer]) % 256 ≤ 128
               then chip (wire ++ [channel + fifoBuffer]) % 256 else 0xFF,
             wire ++ [channel + fifoBuffer])) ∧
    ((MAXGetUARTFIFOLevel chip channel fifoBuffer wire).1 ≤ 128 ∨
      (MAXGetUARTFIFOLevel chip channel fifoBuffer wire).1 = 0xFF) := by
  refine ⟨?_, ?_, ?_⟩
  · intro h1 h2
    simp [MAXGetUARTFIFOLevel, h1, h2]
  · intro hsel hch
    have hr : fifoBuffer % 256 = 0 ∧ fifoBuffer ≤ 0x1F00 := by
      rcases hsel with rfl | rfl <;> decide
    have hne : ¬ (fifoBuffer ≠ max3109_TxFIFOLvl ∧ fifoBuffer ≠ max3109_RxFIFOLvl) := by
      rcases hsel with rfl | rfl <;> decide
    simp only [MAXGetUARTFIFOLevel, valid_of_mem channel hch, hne,
      read_valid chip channel fifoBuffer wire hch hr.1 hr.2,
      MAXIMUM_MAX3109_FIFO_SIZE_IN_BYTES]
    by_cases hb : chip (wire ++ [channel + fifoBuffer]) % 256 ≤ 128
    · simp [hb, Nat.not_lt.mpr hb]
    · simp [hb, Nat.lt_of_not_le hb]
  · unfold MAXGetUARTFIFOLevel
    split
    · right; rfl
    · simp only [MAXIMUM_MAX3109_FIFO_SIZE_IN_BYTES]
      split
      · right; rfl
      · left; omega

/-- C8 at UART_1 and the receive-level register on a bridge answering 0xFFFF: one read
word 0x3200 is sent and the out-of-range byte 0xFF is reported as the sentinel. -/
theorem C8_fifo_level_witness :
    MAXGetUARTFIFOLevel allOnesBridge UART_1 max3109_RxFIFOLvl []
      = (if allOnesBridge ([] ++ [UART_1 + max3109_RxFIFOLvl]) % 256 ≤ 128
           then allOnesBridge ([] ++ [UART_1 + max3109_RxFIFOLvl]) % 256 else 0xFF,
         [] ++ [UART_1 + max3109_RxFIFOLvl]) :=
  (C8_fifo_level allOnesBridge UART_1 max3109_RxFIFOLvl []).2.1 (Or.inr rfl) (Or.inr rfl)

/-- C9: for a valid channel `MAXIsUARTReceiveReadyToRead` issues exactly two reads, the
ISR-status read first and the LSR read second, and returns true exactly when bit 0x40
of the low byte of the first answer and bit 0x01 of the low byte of the second answer
are both set. -/
theorem C9_receive_ready (chip : Bridge) (channel : Nat) (wire : Wire)
    (hch : channel = UART_0 ∨ channel = UART_1) :
    MAXIsUARTReceiveReadyToRead chip channel wire
      = ((chip (wire ++ [channel + max3109_ISR_Status]) % 256).testBit 6 &&
          (chip (wire ++ [channel + max3109_ISR_Status, channel + max3109_LSR]) % 256).testBit 0,
         wire ++ [channel + max3109_ISR_Status, channel + max3109_LSR]) := by
  have b1 := (byte_bits (chip (wire ++ [channel + max3109_ISR_Status]) % 256)
    (Nat.mod_lt _ (by decide))).1
  have b2 := (byte_bits
    (chip (wire ++ [channel + max3109_ISR_Status, channel + max3109_LSR]) % 256)
    (Nat.mod_lt _ (by decide))).2
  simp only [MAXIsUARTReceiveReadyToRead, valid_of_mem channel hch,
    read_valid chip channel max3109_ISR_Status wire hch (by decide) (by decide),
    read_valid chip channel max3109_LSR _ hch (by decide) (by decide)]
  simp only [List.append_assoc, List.singleton_append] at b1 b2 ⊢
  rw [b1, b2]
  simp

/-- C9 at UART_0 on a bridge answering 0xFFFF: both bits are set, the result is true and
the words 0x0200 and 0x0400 are sent in this order. -/
theorem C9_receive_ready_witness :
    MAXIsUARTReceiveReadyToRead allOnesBridge UART_0 [] = (true, [0x0200, 0x0400]) :=
  C9_receive_ready allOnesBridge UART_0 [] (Or.inl rfl)

/-- C10 as stated fails for the enumerator `max3109_TxSync` on UART_0: the write word is
0xA000, whose bit 13 is set and whose register field is 0, so it does not have the
layout; it is the very word sent for the hold register on UART_1. -/
theorem C10_counterexample :
    max3109_TxSync ∈ MAX3109_REGISTER_ADDRESS_VALUE ∧
      (MAXwriteRegisterValue allOnesBridge UART_0 max3109_TxSync 0 []).2 = [0xA000] ∧
      ¬ HasCommandLayout 0xA000 true UART_0 max3109_TxSync 0 ∧
      (MAXwriteRegisterValue allOnesBridge UART_1 max3109_TRxHR 0 []).2 = [0xA000] := by
  refine ⟨by decide, by decide, ?_, by decide⟩
  unfold HasCommandLayout
  decide

/-- C10 (amended): for every channel in UART_0, UART_1, every enumerated register whose
code lies within the field 0x1F00 (TRxHR up to GloblComnd) and every byte value, the word
sent by `MAXwriteRegisterValue` has bit 15 set, bit 14 clear, bit 13 set exactly for
UART_1, the register code in bits 12-8 and the value in bits 7-0; the word sent by
`MAXreadRegisterValue` has the same channel and register fields, bit 15 clear and a zero
low byte. -/
theorem C10_command_word_layout (chip : Bridge) (channel maxRegister value : Nat)
    (wire : Wire) (hch : channel = UART_0 ∨ channel = UART_1)
    (hreg : maxRegister ∈ MAX3109_REGISTER_ADDRESS_VALUE) (hfit : maxRegister ≤ 0x1F00)
    (hv : value < 256) :
    (∃ w, (MAXwriteRegisterValue chip channel maxRegister value wire).2 = wire ++ [w] ∧
        HasCommandLayout w true channel maxRegister value) ∧
    (∃ r, (MAXreadRegisterValue chip channel maxRegister wire).2 = wire ++ [r] ∧
        HasCommandLayout r false channel maxRegister 0) := by
  have hr := register_codes_aligned maxRegister hreg
  constructor
  · refine ⟨0x8000 + channel + maxRegister + value, ?_, ?_⟩
    · rw [write_valid chip channel maxRegister value wire hch hr hfit hv]
    · unfold HasCommandLayout
      simp only [Nat.testBit_to_div_mod, UART_1]
      rcases hch with rfl | rfl <;> simp [UART_0, UART_1] <;> omega
  · refine ⟨channel + maxRegister, ?_, ?_⟩
    · rw [read_valid chip channel maxRegister wire hch hr hfit]
    · unfold HasCommandLayout
      simp only [Nat.testBit_to_div_mod, UART_1]
      rcases hch with rfl | rfl <;> simp [UART_0, UART_1] <;> omega

/-- C10 (amended) at UART_1, register MODE2, value 0x01: the write word is 0xAA01 and the
read word is 0x2A00. -/
theorem C10_command_word_layout_witness :
    (∃ w, (MAXwriteRegisterValue allOnesBridge UART_1 max3109_MODE2 0x01 []).2 = [] ++ [w] ∧
        HasCommandLayout w true UART_1 max3109_MODE2 0x01) ∧
    (∃ r, (MAXreadRegisterValue allOnesBridge UART_1 max3109_MODE2 []).2 = [] ++ [r] ∧
        HasCommandLayout r false UART_1 max3109_MODE2 0) :=
  C10_command_word_layout allOnesBridge UART_1 max3109_MODE2 0x01 [] (Or.inr rfl)
    (by decide) (by decide) (by decide)

/-! ## Lemmas on the initialization sequence -/

theorem knownValueReadback_wire (chip : Bridge) (wire : Wire) :
    (knownValueReadback chip wire).2 = wire ++ knownValueWords := by
  rw [knownValueReadback_spec]
  rfl

theorem retryLoopA_fail (chip : Bridge) (n : Nat) (wire : Wire)
    (h : (knownValueReadback chip wire).1 ≠ 1) :
    retryLoopA chip (n + 1) wire = retryLoopA chip n (wire ++ knownValueWords) := by
  have h1 : ¬ (1 = (knownValueReadback chip wire).1) := fun e => h e.symm
  simp only [retryLoopA, h1, if_false, knownValueReadback_wire]

theorem retryLoopA_pass (chip : Bridge) (n : Nat) (wire : Wire)
    (h : (knownValueReadback chip wire).1 = 1) :
    retryLoopA chip (n + 1) wire = (n + 1, wire ++ knownValueWords) := by
  simp only [retryLoopA, h, if_true, knownValueReadback_wire]

/-- The master reset sends its four words whatever the bridge answers, and the rest of
`MAXInitializeMAX3109` is the two retry loops run after them. -/
theorem init_after_reset (chip : Bridge) (pll clk line : Nat) (wire : Wire) :
    MAXInitializeMAX3109 chip pll clk line wire
      = if 0 = (retryLoopA chip maxRetryAttempts (wire ++ resetWords)).1 then
          (0, (retryLoopA chip maxRetryAttempts (wire ++ resetWords)).2)
        else
          retryLoopB chip pll clk line maxRetryAttempts 0
            (retryLoopA chip maxRetryAttempts (wire ++ resetWords)).2 := by
  have hw : ∀ (channel value : Nat) (w : Wire), channel = UART_0 ∨ channel = UART_1 →
      value < 256 → (MAXwriteRegisterValue chip channel max3109_MODE2 value w).2
        = w ++ [0x8000 + channel + max3109_MODE2 + value] := by
    intro channel value w hch hv
    rw [write_valid chip channel max3109_MODE2 value w hch (by decide) (by decide) hv]
  simp only [MAXInitializeMAX3109, hw UART_0 0x01 _ (Or.inl rfl) (by decide),
    hw UART_1 0x01 _ (Or.inr rfl) (by decide), hw UART_0 0x00 _ (Or.inl rfl) (by decide),
    hw UART_1 0x00 _ (Or.inr rfl) (by decide)]
  simp only [UART_0, UART_1, max3109_MODE2, Nat.reduceAdd, List.append_assoc,
    List.singleton_append, List.nil_append, List.cons_append, resetWords]

theorem retryLoopB_pass (chip : Bridge) (pll clk line n v : Nat) (wire : Wire)
    (h : (configWriteVerify chip pll clk line wire).1 = 1) :
    retryLoopB chip pll clk line (n + 1) v wire
      = (1, (configWriteVerify chip pll clk line wire).2) := by
  simp only [retryLoopB, h, if_true]

/-- When the known-value loop leaves with attempts to spare and the first configuration
group reads back the PLL and line bytes exactly and the clock byte under the mask, the
function returns 1 after that single group. -/
theorem init_first_config_group (chip : Bridge) (pll clk line : Nat) (wire : Wire)
    (hA : 0 ≠ (retryLoopA chip maxRetryAttempts (wire ++ resetWords)).1)
    (hC : (configWriteVerify chip pll clk line
      (retryLoopA chip maxRetryAttempts (wire ++ resetWords)).2).1 = 1) :
    MAXInitializeMAX3109 chip pll clk line wire
      = (1, (configWriteVerify chip pll clk line
          (retryLoopA chip maxRetryAttempts (wire ++ resetWords)).2).2) := by
  rw [init_after_reset, if_neg hA]
  exact retryLoopB_pass chip pll clk line 2 0 _ hC

/-! ## Claims on the initialization sequence -/

/-- C11: Phase B gates Phase C. For every configuration, if none of the three known-value
groups passes its check, `MAXInitializeMAX3109` returns 0 and the wire holds the four
reset words followed by the twelve known-value reads and nothing else: no write word is
sent after the reset. -/
theorem C11_phaseB_gates_phaseC (chip : Bridge) (pll clk line : Nat) (wire : Wire)
    (h0 : (knownValueReadback chip (wire ++ resetWords)).1 ≠ 1)
    (h1 : (knownValueReadback chip (wire ++ resetWords ++ knownValueWords)).1 ≠ 1)
    (h2 : (knownValueReadback chip
      (wire ++ resetWords ++ knownValueWords ++ knownValueWords)).1 ≠ 1) :
    MAXInitializeMAX3109 chip pll clk line wire
      = (0, wire ++ resetWords ++ knownValueWords ++ knownValueWords ++ knownValueWords) ∧
    (knownValueWords ++ knownValueWords ++ knownValueWords).length = 12 ∧
    ∀ w ∈ knownValueWords ++ knownValueWords ++ knownValueWords, w.testBit 15 = false := by
  refine ⟨?_, by decide, by decide⟩
  have hA : retryLoopA chip maxRetryAttempts (wire ++ resetWords)
      = (0, wire ++ resetWords ++ knownValueWords ++ knownValueWords ++ knownValueWords) := by
    show retryLoopA chip (2 + 1) (wire ++ resetWords) = _
    rw [retryLoopA_fail chip 2 _ h0]
    show retryLoopA chip (1 + 1) _ = _
    rw [retryLoopA_fail chip 1 _ h1]
    show retryLoopA chip (0 + 1) _ = _
    rw [retryLoopA_fail chip 0 _ h2]
    rfl
  rw [init_after_reset, hA]
  rfl

/-- C11 on a bridge that answers 0 to everything: every known-value group fails, the
result is 0 and 16 words are sent. -/
theorem C11_phaseB_gates_phaseC_witness :
    MAXInitializeMAX3109 zeroBridge 0x01 0x0C 0x03 []
      = (0, [] ++ resetWords ++ knownValueWords ++ knownValueWords ++ knownValueWords) ∧
    (knownValueWords ++ knownValueWords ++ knownValueWords).length = 12 ∧
    ∀ w ∈ knownValueWords ++ knownValueWords ++ knownValueWords, w.testBit 15 = false :=
  C11_phaseB_gates_phaseC zeroBridge 0x01 0x0C 0x03 [] (by decide) (by decide) (by decide)

/-- C12 on the register-file bridge with PLL byte 0x01, clock byte 0x01 and line byte
0x03: the known-value group passes, every readback of the configuration group returns
exactly the byte written (clock source 0x01, PLL 0x01, line control 0x03 on both
channels), yet the group does not pass and `MAXInitializeMAX3109` returns 0 after three
configuration groups (32 words). -/
theorem C12_faithful_chip_rejected :
    (knownValueReadback faithfulBridge resetWords).1 = 1 ∧
      faithfulBridge (resetWords ++ knownValueWords ++
        [0x9E01, 0x9A01, 0x8B03, 0xAB03, 0x1E00]) = 0x01 ∧
      faithfulBridge (resetWords ++ knownValueWords ++
        [0x9E01, 0x9A01, 0x8B03, 0xAB03, 0x1E00, 0x1A00]) = 0x01 ∧
      faithfulBridge (resetWords ++ knownValueWords ++
        [0x9E01, 0x9A01, 0x8B03, 0xAB03, 0x1E00, 0x1A00, 0x0B00]) = 0x03 ∧
      faithfulBridge (resetWords ++ knownValueWords ++
        [0x9E01, 0x9A01, 0x8B03, 0xAB03, 0x1E00, 0x1A00, 0x0B00, 0x2B00]) = 0x03 ∧
      (configWriteVerify faithfulBridge 0x01 0x01 0x03 (resetWords ++ knownValueWords)).1 = 0 ∧
      (MAXInitializeMAX3109 faithfulBridge 0x01 0x01 0x03 []).1 = 0 ∧
      (MAXInitializeMAX3109 faithfulBridge 0x01 0x01 0x03 []).2.length = 32 := by
  decide

/-- C13 on the register-file bridge with bytes 0x01, 0x0C, 0x03, where both phases pass
on their first group, the function returns 1; on the bridge that answers 0 to
everything, where the known-value phase uses up its three groups, it returns 0. This is
the convention stated at the definition in MAX3109.c and the reverse of the one stated
in MAX3109.h. -/
theorem C13_return_convention :
    (knownValueReadback faithfulBridge resetWords).1 = 1 ∧
      (configWriteVerify faithfulBridge 0x01 0x0C 0x03 (resetWords ++ knownValueWords)).1 = 1 ∧
      (MAXInitializeMAX3109 faithfulBridge 0x01 0x0C 0x03 []).1 = 1 ∧
      (retryLoopA zeroBridge maxRetryAttempts resetWords).1 = 0 ∧
      (MAXInitializeMAX3109 zeroBridge 0x01 0x0C 0x03 []).1 = 0 := by
  decide

/-! ## Further claims on the queue -/

/-- The bounds `read ≤ write < capacity` are kept by every call, on their own. -/
theorem positions_apply (c : Nat) (hc : 1 ≤ c) (hsz : c < SIZE_MOD) (q : Queue)
    (hcap : q.capacity = c) (hrw : q.read ≤ q.write) (hw : q.write < c) (op : QOp) :
    (op.apply q).capacity = c ∧ (op.apply q).read ≤ (op.apply q).write ∧
      (op.apply q).write < c := by
  have hcm : (q.capacity + SIZE_MOD - 1) % SIZE_MOD = c - 1 := by
    rw [hcap]; exact capMinusOne_eq c hc hsz
  have hws : (q.write + 1) % SIZE_MOD = q.write + 1 := by
    unfold SIZE_MOD at *; omega
  have hrs : (q.read + 1) % SIZE_MOD = q.read + 1 := by
    unfold SIZE_MOD at *; omega
  cases op with
  | push v =>
    simp only [QOp.apply, q_push, hcm]
    split
    · exact ⟨hcap, hrw, hw⟩
    · split
      · exact ⟨hcap, hrw, hw⟩
      · refine ⟨hcap, ?_, ?_⟩
        · show q.read ≤ (q.write + 1) % SIZE_MOD
          rw [hws]; omega
        · show (q.write + 1) % SIZE_MOD < c
          rw [hws]; omega
  | pop =>
    simp only [QOp.apply, q_pop, hcm]
    split
    · exact ⟨hcap, hrw, hw⟩
    · split
      · exact ⟨hcap, Nat.le_refl 0, by show 0 < c; omega⟩
      · rename_i h1 h2
        refine ⟨hcap, ?_, hw⟩
        show (q.read + 1) % SIZE_MOD ≤ q.write
        rw [hrs]; omega
  | reset => exact ⟨hcap, Nat.le_refl 0, by show 0 < c; omega⟩

/-- C14 at capacity 4 after push 1, 2, 3, 4 (read position 0): the final index 3 is within
capacity and holds 4, but `q_peek` with offset 3 returns 0. -/
theorem C14_peek_final_index :
    (q_pushAll queue4 [1, 2, 3, 4]).read + 3 < (q_pushAll queue4 [1, 2, 3, 4]).capacity ∧
      (q_pushAll queue4 [1, 2, 3, 4]).data.getD
        ((q_pushAll queue4 [1, 2, 3, 4]).read + 3) 0 = 4 ∧
      q_peek (q_pushAll queue4 [1, 2, 3, 4]) 3 = 0 ∧
      q_peek (q_pushAll queue4 [1, 2, 3, 4]) 2 = 3 := by
  decide

/-- C15: position invariant. For every capacity `c ≥ 1`, each of `q_push`, `q_pop` and
`q_reset` keeps `read ≤ write < c`; hence in every state reached from a reset queue both
positions are below `c` and inside the backing array, and the subtraction
`write - read` of `q_numMsgsInQueue` does not wrap: with the flag clear the count is the
exact difference. -/
theorem C15_position_invariant (c : Nat) (hc : 1 ≤ c) (hsz : c < SIZE_MOD) :
    (∀ (q : Queue) (op : QOp), q.capacity = c → q.read ≤ q.write → q.write < c →
        (op.apply q).capacity = c ∧ (op.apply q).read ≤ (op.apply q).write ∧
          (op.apply q).write < c) ∧
    (∀ (q0 : Queue) (ops : List QOp), q0.capacity = c → q0.data.length = c →
        (runOps ops (q_reset q0, [])).1.read ≤ (runOps ops (q_reset q0, [])).1.write ∧
        (runOps ops (q_reset q0, [])).1.write < c ∧
        (runOps ops (q_reset q0, [])).1.read < (runOps ops (q_reset q0, [])).1.data.length ∧
        (runOps ops (q_reset q0, [])).1.write < (runOps ops (q_reset q0, [])).1.data.length ∧
        ((runOps ops (q_reset q0, [])).1.isQueueFull = false →
          q_numMsgsInQueue (runOps ops (q_reset q0, [])).1
            = (runOps ops (q_reset q0, [])).1.write - (runOps ops (q_reset q0, [])).1.read)) := by
  constructor
  · intro q op hcap hrw hw
    exact positions_apply c hc hsz q hcap hrw hw op
  · intro q0 ops hcap hlen
    have hinv := runOps_QInv c ops (q_reset q0, []) (QInv_reset c q0 hc hsz hcap hlen)
    obtain ⟨_, hl, hrw, hw, _, _⟩ := hinv
    refine ⟨hrw, hw, by omega, by omega, ?_⟩
    intro hf
    simp only [q_numMsgsInQueue, hf, Bool.false_eq_true, if_false]
    unfold SIZE_MOD at *
    omega

/-- C15 at capacity 4 after push 1, push 2, pop: read 1, write 2, count 1. -/
theorem C15_position_invariant_witness :
    (runOps [.push 1, .push 2, .pop] (q_reset storage4, [])).1.read
        ≤ (runOps [.push 1, .push 2, .pop] (q_reset storage4, [])).1.write ∧
      (runOps [.push 1, .push 2, .pop] (q_reset storage4, [])).1.write < 4 ∧
      (runOps [.push 1, .push 2, .pop] (q_reset storage4, [])).1.read
        < (runOps [.push 1, .push 2, .pop] (q_reset storage4, [])).1.data.length ∧
      (runOps [.push 1, .push 2, .pop] (q_reset storage4, [])).1.write
        < (runOps [.push 1, .push 2, .pop] (q_reset storage4, [])).1.data.length ∧
      ((runOps [.push 1, .push 2, .pop] (q_reset storage4, [])).1.isQueueFull = false →
        q_numMsgsInQueue (runOps [.push 1, .push 2, .pop] (q_reset storage4, [])).1
          = (runOps [.push 1, .push 2, .pop] (q_reset storage4, [])).1.write
            - (runOps [.push 1, .push 2, .pop] (q_reset storage4, [])).1.read) :=
  (C15_position_invariant 4 (by decide) (by decide)).2 storage4 [.push 1, .push 2, .pop]
    rfl rfl

/-- C16 at capacity 4 after push 1, 2, 3, 4, four pops, push 5 and one pop: nothing is
staged and the count is 0, but the positions stand at 1 and `q_pop` returns the stale
value 2 of slot 1, not 0. -/
theorem C16_pop_on_empty_returns_stale :
    (runOps [.push 1, .push 2, .push 3, .push 4, .pop, .pop, .pop, .pop, .push 5, .pop]
        (queue4, [])).2 = [] ∧
      q_numMsgsInQueue (runOps
        [.push 1, .push 2, .push 3, .push 4, .pop, .pop, .pop, .pop, .push 5, .pop]
        (queue4, [])).1 = 0 ∧
      (runOps [.push 1, .push 2, .push 3, .push 4, .pop, .pop, .pop, .pop, .push 5, .pop]
        (queue4, [])).1.read = 1 ∧
      (q_pop (runOps
        [.push 1, .push 2, .push 3, .push 4, .pop, .pop, .pop, .pop, .push 5, .pop]
        (queue4, [])).1).1 = 2 := by
  decide

/-- C18 at capacity 1: after `q_push` of 7 on the reset queue, `q_pop` returns 0 and
changes nothing, so the count stays 1, the flag stays set and a further `q_push` is
dropped. -/
theorem C18_capacity_one :
    (q_pop (q_push (q_reset storage1) 7)).1 = 0 ∧
      (q_pop (q_push (q_reset storage1) 7)).2 = q_push (q_reset storage1) 7 ∧
      (q_push (q_reset storage1) 7).data = [7] ∧
      q_numMsgsInQueue (q_pop (q_push (q_reset storage1) 7)).2 = 1 ∧
      (q_pop (q_push (q_reset storage1) 7)).2.isQueueFull = true ∧
      q_push (q_pop (q_push (q_reset storage1) 7)).2 8
        = (q_pop (q_push (q_reset storage1) 7)).2 := by
  decide

/-! ## Claims on the FIFO accessors and the transfer functions -/

/-- C17: one wire transaction per accessor call. For a valid channel,
`MAXPopSingleValueFromUARTRxFIFO` sends the single word `channel` (the read command of
the hold register: 0x0000 on UART_0, 0x2000 on UART_1) and returns the low byte of the
answer; `MAXPushSingleValueToUARTTxFIFO` sends the single word `0x8000 | channel | v` and
returns 0 whatever the answer. -/
theorem C17_one_transaction_per_call (chip : Bridge) (channel valueToWrite : Nat)
    (wire : Wire) (hch : channel = UART_0 ∨ channel = UART_1) (hv : valueToWrite < 256) :
    MAXPopSingleValueFromUARTRxFIFO chip channel wire
      = (chip (wire ++ [channel]) % 256, wire ++ [channel]) ∧
    MAXPushSingleValueToUARTTxFIFO chip channel valueToWrite wire
      = (0, wire ++ [0x8000 ||| channel ||| valueToWrite]) := by
  constructor
  · simp only [MAXPopSingleValueFromUARTRxFIFO, valid_of_mem channel hch,
      read_valid chip channel max3109_TRxHR wire hch (by decide) (by decide)]
    simp [max3109_TRxHR]
  · have hword : 0x8000 ||| channel ||| valueToWrite
        = 0x8000 + channel + max3109_TRxHR + valueToWrite := by
      rcases hch with rfl | rfl
      · simp only [UART_0, max3109_TRxHR, Nat.reduceOr]
        rw [or_byte _ _ (by decide) hv]
      · simp only [UART_1, max3109_TRxHR, Nat.reduceOr]
        rw [or_byte _ _ (by decide) hv]
    simp only [MAXPushSingleValueToUARTTxFIFO, valid_of_mem channel hch,
      write_valid chip channel max3109_TRxHR valueToWrite wire hch (by decide) (by decide) hv,
      hword]
    simp

/-- C17 on UART_1 with the byte 0x55 on a bridge answering 0xFFFF: the pop sends 0x2000
and returns 0xFF, the push sends 0xA055 and returns 0. -/
theorem C17_one_transaction_per_call_witness :
    MAXPopSingleValueFromUARTRxFIFO allOnesBridge UART_1 []
      = (allOnesBridge ([] ++ [UART_1]) % 256, [] ++ [UART_1]) ∧
    MAXPushSingleValueToUARTTxFIFO allOnesBridge UART_1 0x55 []
      = (0, [] ++ [0x8000 ||| UART_1 ||| 0x55]) :=
  C17_one_transaction_per_call allOnesBridge UART_1 0x55 [] (Or.inr rfl) (by decide)

theorem pop_valid (chip : Bridge) (channel : Nat) (wire : Wire)
    (hch : channel = UART_0 ∨ channel = UART_1) :
    MAXPopSingleValueFromUARTRxFIFO chip channel wire
      = (chip (wire ++ [channel]) % 256, wire ++ [channel]) := by
  simp only [MAXPopSingleValueFromUARTRxFIFO, valid_of_mem channel hch,
    read_valid chip channel max3109_TRxHR wire hch (by decide) (by decide)]
  simp [max3109_TRxHR]

theorem rxLevel_valid (chip : Bridge) (channel : Nat) (wire : Wire)
    (hch : channel = UART_0 ∨ channel = UART_1) :
    MAXGetUARTFIFOLevel chip channel max3109_RxFIFOLvl wire
      = (if chip (wire ++ [channel + max3109_RxFIFOLvl]) % 256 ≤ 128
           then chip (wire ++ [channel + max3109_RxFIFOLvl]) % 256 else 0xFF,
         wire ++ [channel + max3109_RxFIFOLvl]) := by
  have hne : ¬ (max3109_RxFIFOLvl ≠ max3109_TxFIFOLvl ∧
      max3109_RxFIFOLvl ≠ max3109_RxFIFOLvl) := by decide
  simp only [MAXGetUARTFIFOLevel, valid_of_mem channel hch, hne,
    read_valid chip channel max3109_RxFIFOLvl wire hch (by decide) (by decide),
    MAXIMUM_MAX3109_FIFO_SIZE_IN_BYTES]
  by_cases hb : chip (wire ++ [channel + max3109_RxFIFOLvl]) % 256 ≤ 128
  · simp [hb, Nat.not_lt.mpr hb]
  · simp [hb, Nat.lt_of_not_le hb]

/-- The read loop on a valid channel: `left` hold-register reads, the low byte of each
answer pushed in the order read. -/
theorem readLoop_spec {β : Type} (ops : CircBufferOps β) (chip : Bridge) (channel : Nat)
    (hch : channel = UART_0 ∨ channel = UART_1) (left : Nat) :
    ∀ (counter : Nat) (wire : Wire) (buf : β), counter + left < 256 →
      readLoop ops chip channel left counter wire buf
        = (counter + left, wire ++ List.replicate left channel,
            ((List.range left).map
              (fun i => chip (wire ++ List.replicate (i + 1) channel) % 256)).foldl
              ops.cb_push buf) := by
  induction left with
  | zero =>
    intro counter wire buf _
    simp [readLoop]
  | succ left ih =>
    intro counter wire buf hlt
    have hc : (counter + 1) % 256 = counter + 1 := Nat.mod_eq_of_lt (by omega)
    simp only [readLoop, pop_valid chip channel wire hch, hc]
    rw [ih (counter + 1) (wire ++ [channel]) _ (by omega)]
    refine Prod.ext (by simp only; omega) (Prod.ext ?_ ?_)
    · simp [List.replicate_succ]
    · simp only [List.range_succ_eq_map, List.map_cons, List.map_map, List.foldl_cons]
      simp [List.replicate_succ, Function.comp_def]

/-- The write loop on an invalid channel: every pass counts one byte as written and one
error, and nothing goes on the wire. -/
theorem writeLoop_invalid {β : Type} (ops : CircBufferOps β) (chip : Bridge) (channel : Nat)
    (txBuf : β) (hinv : UARTChannelIsInvalid channel = true) (left : Nat) :
    ∀ (counter numBytesWritten errorCounter : Nat) (wire : Wire),
      numBytesWritten < 256 → errorCounter < 256 →
      writeLoop ops chip channel txBuf left counter numBytesWritten errorCounter wire
        = ((numBytesWritten + left) % 256, (errorCounter + left) % 256, wire) := by
  induction left with
  | zero =>
    intro counter nbw err wire h1 h2
    simp only [writeLoop, Nat.add_zero, Nat.mod_eq_of_lt h1, Nat.mod_eq_of_lt h2]
  | succ left ih =>
    intro counter nbw err wire h1 h2
    simp only [writeLoop, MAXPushSingleValueToUARTTxFIFO, hinv, if_true]
    rw [ih _ _ _ _ (Nat.mod_lt _ (by decide)) (Nat.mod_lt _ (by decide))]
    refine Prod.ext ?_ (Prod.ext ?_ rfl)
    · simp only; omega
    · simp only; omega

/-- On an invalid channel `WriteDataToUARTTransmitBuffer` returns 0 and sends nothing,
and the transmit buffer is the one `cb_advance_tail` gives for the requested count. -/
theorem write_invalid_channel {β : Type} (ops : CircBufferOps β) (chip : Bridge)
    (channel : Nat) (txBuf : β) (numBytesToWrite : Nat) (wire : Wire)
    (hinv : UARTChannelIsInvalid channel = true) (hn : numBytesToWrite < 256) :
    WriteDataToUARTTransmitBuffer ops chip channel txBuf numBytesToWrite wire
      = (0, wire, ops.cb_advance_tail txBuf numBytesToWrite) := by
  simp only [WriteDataToUARTTransmitBuffer,
    writeLoop_invalid ops chip channel txBuf hinv numBytesToWrite 0 0 0 wire
      (by decide) (by decide), Nat.zero_add, Nat.mod_eq_of_lt hn]
  by_cases h0 : 0 = numBytesToWrite
  · simp [← h0]
  · simp [h0]

/-- C19 on the channel value 0x4000 with the bytes 10, 20, 30 staged and a count of 2:
the function returns 0 and sends nothing, but the transmit buffer has been advanced by 2
and holds only the byte 30. -/
theorem C19_invalid_channel_advances_tail :
    UARTChannelIsInvalid 0x4000 = true ∧
      WriteDataToUARTTransmitBuffer listBuffer allOnesBridge 0x4000 [10, 20, 30] 2 []
        = (0, [], [30]) ∧
      listBuffer.cb_advance_tail [10, 20, 30] 2 = [30] := by
  decide

/-- C20: `ReadDataFromUARTBuffer` on a valid channel and a buffer. With `L` the low byte
of the answer to the receive-level read: if `1 ≤ L ≤ 128` it sends `L` hold-register
reads after the level read, pushes the low byte of each answer in the order read and
returns `L`; if `L` is 0 or above 128 it sends only the level read, pushes nothing and
returns 0. With no buffer it returns 0 and sends nothing. -/
theorem C20_read_data_from_uart {β : Type} (ops : CircBufferOps β) (chip : Bridge)
    (channel : Nat) (buf : β) (wire : Wire) (hch : channel = UART_0 ∨ channel = UART_1) :
    (1 ≤ chip (wire ++ [channel + max3109_RxFIFOLvl]) % 256 →
      chip (wire ++ [channel + max3109_RxFIFOLvl]) % 256 ≤ 128 →
        ReadDataFromUARTBuffer ops chip channel (some buf) wire
          = (chip (wire ++ [channel + max3109_RxFIFOLvl]) % 256,
             wire ++ [channel + max3109_RxFIFOLvl] ++
               List.replicate (chip (wire ++ [channel + max3109_RxFIFOLvl]) % 256) channel,
             some (((List.range (chip (wire ++ [channel + max3109_RxFIFOLvl]) % 256)).map
               (fun i => chip (wire ++ [channel + max3109_RxFIFOLvl] ++
                 List.replicate (i + 1) channel) % 256)).foldl ops.cb_push buf))) ∧
    (chip (wire ++ [channel + max3109_RxFIFOLvl]) % 256 = 0 ∨
      128 < chip (wire ++ [channel + max3109_RxFIFOLvl]) % 256 →
        ReadDataFromUARTBuffer ops chip channel (some buf) wire
          = (0, wire ++ [channel + max3109_RxFIFOLvl], some buf)) ∧
    ReadDataFromUARTBuffer ops chip channel none wire = (0, wire, none) := by
  refine ⟨?_, ?_, rfl⟩
  · intro h1 h2
    have hc : ¬ (chip (wire ++ [channel + max3109_RxFIFOLvl]) % 256 > 128 ∨
        0 = chip (wire ++ [channel + max3109_RxFIFOLvl]) % 256) := by omega
    simp only [ReadDataFromUARTBuffer, rxLevel_valid chip channel wire hch, if_pos h2,
      MAXIMUM_MAX3109_FIFO_SIZE_IN_BYTES, if_neg hc]
    rw [readLoop_spec ops chip channel hch _ 0 _ buf (by omega)]
    simp
  · intro h
    rcases h with h0 | hbig
    · simp [ReadDataFromUARTBuffer, rxLevel_valid chip channel wire hch, h0]
    · have hn : ¬ (chip (wire ++ [channel + max3109_RxFIFOLvl]) % 256 ≤ 128) := by omega
      simp [ReadDataFromUARTBuffer, rxLevel_valid chip channel wire hch, if_neg hn,
        MAXIMUM_MAX3109_FIFO_SIZE_IN_BYTES]

/-- C20 on UART_1 with a bridge reporting a receive level of 2 and an empty list buffer:
three words are sent (the level read 0x3200 and two hold reads 0x2000), the bytes 0x42
and 0x43 answered to the hold reads are pushed in this order and the result is 2. -/
theorem C20_read_data_from_uart_witness :
    ReadDataFromUARTBuffer listBuffer fifoBridge UART_1 (some []) []
      = (2, [0x3200, 0x2000, 0x2000], some [0x42, 0x43]) :=
  (C20_read_data_from_uart listBuffer fifoBridge UART_1 [] [] (Or.inr rfl)).1
    (by decide) (by decide)

/-! ## Bounds and independence of the initialization sequence -/

/-- On a valid channel `MAXwriteRegisterValue` appends its word and returns 0, whatever
the bridge answers. -/
theorem write_raw (chip : Bridge) (channel maxRegister value : Nat) (wire : Wire)
    (hch : channel = UART_0 ∨ channel = UART_1) :
    MAXwriteRegisterValue chip channel maxRegister value wire
      = (0, wire ++ [(WRITE_MAX ||| channel ||| maxRegister ||| value) % 65536]) := by
  simp [MAXwriteRegisterValue, valid_of_mem channel hch, SPIreadWriteWord]

theorem repeatGroup_length (n : Nat) (g : List Nat) :
    (repeatGroup n g).length = n * g.length := by
  induction n with
  | zero => simp [repeatGroup]
  | succ n ih => simp [repeatGroup, ih, Nat.succ_mul, Nat.add_comm]

/-- One configuration group sends its eight words and yields 0 or 1. -/
theorem configWriteVerify_shape (chip : Bridge) (pll clk line : Nat) (wire : Wire) :
    (configWriteVerify chip pll clk line wire).2 = wire ++ configWords pll clk line ∧
      ((configWriteVerify chip pll clk line wire).1 = 0 ∨
        (configWriteVerify chip pll clk line wire).1 = 1) := by
  simp only [configWriteVerify,
    write_raw chip UART_0 _ _ _ (Or.inl rfl), write_raw chip UART_1 _ _ _ (Or.inr rfl),
    read_valid chip UART_0 max3109CLKSource _ (Or.inl rfl) (by decide) (by decide),
    read_valid chip UART_0 max3109_PLLConfig _ (Or.inl rfl) (by decide) (by decide),
    read_valid chip UART_0 max3109_LCR _ (Or.inl rfl) (by decide) (by decide),
    read_valid chip UART_1 max3109_LCR _ (Or.inr rfl) (by decide) (by decide)]
  rw [and4_flags]
  constructor
  · simp [configWords, UART_0, UART_1, max3109CLKSource, max3109_PLLConfig, max3109_LCR]
  · split
    · right; rfl
    · left; rfl

/-- The known-value loop started with `n` attempts sends between 1 and `n` groups (none
when `n` is 0). -/
theorem retryLoopA_shape (chip : Bridge) (n : Nat) :
    ∀ W : Wire, ∃ a, a ≤ n ∧ (1 ≤ n → 1 ≤ a) ∧
      (retryLoopA chip n W).2 = W ++ repeatGroup a knownValueWords := by
  induction n with
  | zero =>
    intro W
    exact ⟨0, Nat.le_refl 0, fun h => absurd h (by decide), by simp [retryLoopA, repeatGroup]⟩
  | succ n ih =>
    intro W
    by_cases hp : (knownValueReadback chip W).1 = 1
    · refine ⟨1, by omega, fun _ => Nat.le_refl 1, ?_⟩
      rw [retryLoopA_pass chip n W hp]
      simp [repeatGroup]
    · obtain ⟨a, ha, _, hw⟩ := ih (W ++ knownValueWords)
      refine ⟨a + 1, by omega, fun _ => by omega, ?_⟩
      rw [retryLoopA_fail chip n W hp, hw]
      simp [repeatGroup]

/-- The configuration loop started with `n` attempts sends at most `n` groups and leaves
with 0 or 1 when it was entered with 0 or 1. -/
theorem retryLoopB_shape (chip : Bridge) (pll clk line : Nat) (n : Nat) :
    ∀ (v : Nat) (W : Wire), v = 0 ∨ v = 1 → ∃ b, b ≤ n ∧
      (retryLoopB chip pll clk line n v W).2 = W ++ repeatGroup b (configWords pll clk line) ∧
      ((retryLoopB chip pll clk line n v W).1 = 0 ∨
        (retryLoopB chip pll clk line n v W).1 = 1) := by
  induction n with
  | zero =>
    intro v W hv
    exact ⟨0, Nat.le_refl 0, by simp [retryLoopB, repeatGroup], by simpa [retryLoopB] using hv⟩
  | succ n ih =>
    intro v W _
    obtain ⟨hw, hf⟩ := configWriteVerify_shape chip pll clk line W
    by_cases hp : 1 = (configWriteVerify chip pll clk line W).1
    · refine ⟨1, by omega, ?_, ?_⟩
      · simp only [retryLoopB, if_pos hp, hw]
        simp [repeatGroup]
      · simp only [retryLoopB, if_pos hp]
        exact hf
    · obtain ⟨b, hb, hbw, hbf⟩ := ih (configWriteVerify chip pll clk line W).1
        (configWriteVerify chip pll clk line W).2 hf
      refine ⟨b + 1, by omega, ?_, ?_⟩
      · simp only [retryLoopB, if_neg hp]
        rw [hbw, hw]
        simp [repeatGroup]
      · simp only [retryLoopB, if_neg hp]
        exact hbf

/-- Two bridges that agree on every history extending `W` by at least one word also
agree beyond every extension of `W`. -/
theorem agree_append (chip chip2 : Bridge) (W : Wire)
    (h : ∀ x s, chip (W ++ x :: s) = chip2 (W ++ x :: s)) (t : List Nat) :
    ∀ x s, chip ((W ++ t) ++ x :: s) = chip2 ((W ++ t) ++ x :: s) := by
  intro x s
  rw [List.append_assoc]
  cases t with
  | nil => exact h x s
  | cons y t => exact h y (t ++ x :: s)

theorem knownValueReadback_congr (chip chip2 : Bridge) (W : Wire)
    (h : ∀ x s, chip (W ++ x :: s) = chip2 (W ++ x :: s)) :
    knownValueReadback chip W = knownValueReadback chip2 W := by
  rw [knownValueReadback_spec, knownValueReadback_spec]
  rw [h 0x1C00 [], h 0x1C00 [0x1A00], h 0x1C00 [0x1A00, 0x3C00],
    h 0x1C00 [0x1A00, 0x3C00, 0x3A00]]

theorem configWriteVerify_congr (chip chip2 : Bridge) (pll clk line : Nat) (W : Wire)
    (h : ∀ x s, chip (W ++ x :: s) = chip2 (W ++ x :: s)) :
    configWriteVerify chip pll clk line W = configWriteVerify chip2 pll clk line W := by
  simp only [configWriteVerify,
    write_raw chip UART_0 _ _ _ (Or.inl rfl), write_raw chip UART_1 _ _ _ (Or.inr rfl),
    write_raw chip2 UART_0 _ _ _ (Or.inl rfl), write_raw chip2 UART_1 _ _ _ (Or.inr rfl),
    read_valid chip UART_0 max3109CLKSource _ (Or.inl rfl) (by decide) (by decide),
    read_valid chip UART_0 max3109_PLLConfig _ (Or.inl rfl) (by decide) (by decide),
    read_valid chip UART_0 max3109_LCR _ (Or.inl rfl) (by decide) (by decide),
    read_valid chip UART_1 max3109_LCR _ (Or.inr rfl) (by decide) (by decide),
    read_valid chip2 UART_0 max3109CLKSource _ (Or.inl rfl) (by decide) (by decide),
    read_valid chip2 UART_0 max3109_PLLConfig _ (Or.inl rfl) (by decide) (by decide),
    read_valid chip2 UART_0 max3109_LCR _ (Or.inl rfl) (by decide) (by decide),
    read_valid chip2 UART_1 max3109_LCR _ (Or.inr rfl) (by decide) (by decide)]
  simp only [List.append_assoc, List.singleton_append, List.cons_append, List.nil_append, h]

theorem retryLoopA_congr (chip chip2 : Bridge) (n : Nat) :
    ∀ W : Wire, (∀ x s, chip (W ++ x :: s) = chip2 (W ++ x :: s)) →
      retryLoopA chip n W = retryLoopA chip2 n W := by
  induction n with
  | zero => intro W _; rfl
  | succ n ih =>
    intro W h
    have hk := knownValueReadback_congr chip chip2 W h
    simp only [retryLoopA, hk]
    split
    · rfl
    · rw [knownValueReadback_wire]
      exact ih _ (agree_append chip chip2 W h knownValueWords)

theorem retryLoopB_congr (chip chip2 : Bridge) (pll clk line : Nat) (n : Nat) :
    ∀ (v : Nat) (W : Wire), (∀ x s, chip (W ++ x :: s) = chip2 (W ++ x :: s)) →
      retryLoopB chip pll clk line n v W = retryLoopB chip2 pll clk line n v W := by
  induction n with
  | zero => intro v W _; rfl
  | succ n ih =>
    intro v W h
    have hk := configWriteVerify_congr chip chip2 pll clk line W h
    simp only [retryLoopB, hk]
    split
    · rfl
    · rw [(configWriteVerify_shape chip2 pll clk line W).1]
      exact ih _ _ (agree_append chip chip2 W h (configWords pll clk line))

/-- The wire after `MAXInitializeMAX3109` starts with the prior wire and the four reset
words. -/
theorem init_wire_prefix (chip : Bridge) (pll clk line : Nat) (wire : Wire) :
    ∃ rest, (MAXInitializeMAX3109 chip pll clk line wire).2 = wire ++ resetWords ++ rest := by
  obtain ⟨a, _, _, hwa⟩ := retryLoopA_shape chip maxRetryAttempts (wire ++ resetWords)
  rw [init_after_reset]
  split
  · exact ⟨_, hwa⟩
  · obtain ⟨b, _, hbw, _⟩ := retryLoopB_shape chip pll clk line maxRetryAttempts 0
      (retryLoopA chip maxRetryAttempts (wire ++ resetWords)).2 (Or.inl rfl)
    refine ⟨repeatGroup a knownValueWords ++ repeatGroup b (configWords pll clk line), ?_⟩
    rw [hbw, hwa, List.append_assoc]

/-! ## Claims on the bounds of the initialization sequence -/

/-- C21: bounded retry. For every configuration, every bridge and every prior wire,
`MAXInitializeMAX3109` returns 0 or 1 after sending the four reset words, then between 1
and 3 known-value groups of four reads, then at most 3 configuration groups of eight
words: at most 40 transactions in all. -/
theorem C21_bounded_retry (chip : Bridge) (pll clk line : Nat) (wire : Wire) :
    ((MAXInitializeMAX3109 chip pll clk line wire).1 = 0 ∨
      (MAXInitializeMAX3109 chip pll clk line wire).1 = 1) ∧
    (∃ a b, 1 ≤ a ∧ a ≤ 3 ∧ b ≤ 3 ∧
      (MAXInitializeMAX3109 chip pll clk line wire).2
        = wire ++ resetWords ++ repeatGroup a knownValueWords
            ++ repeatGroup b (configWords pll clk line) ∧
      (MAXInitializeMAX3109 chip pll clk line wire).2.length
        = wire.length + 4 + 4 * a + 8 * b) ∧
    (MAXInitializeMAX3109 chip pll clk line wire).2.length ≤ wire.length + 40 := by
  obtain ⟨a, ha, ha1, hwa⟩ := retryLoopA_shape chip maxRetryAttempts (wire ++ resetWords)
  have ha3 : a ≤ 3 := ha
  have ha1 : 1 ≤ a := ha1 (by decide)
  have key : ((MAXInitializeMAX3109 chip pll clk line wire).1 = 0 ∨
        (MAXInitializeMAX3109 chip pll clk line wire).1 = 1) ∧
      ∃ b, b ≤ 3 ∧ (MAXInitializeMAX3109 chip pll clk line wire).2
        = wire ++ resetWords ++ repeatGroup a knownValueWords
            ++ repeatGroup b (configWords pll clk line) := by
    rw [init_after_reset]
    split
    · exact ⟨Or.inl rfl, 0, by omega, by simp [hwa, repeatGroup]⟩
    · obtain ⟨b, hb, hbw, hbf⟩ := retryLoopB_shape chip pll clk line maxRetryAttempts 0
        (retryLoopA chip maxRetryAttempts (wire ++ resetWords)).2 (Or.inl rfl)
      exact ⟨hbf, b, hb, by rw [hbw, hwa]⟩
  obtain ⟨hres, b, hb, hw⟩ := key
  have hlen : (MAXInitializeMAX3109 chip pll clk line wire).2.length
      = wire.length + 4 + 4 * a + 8 * b := by
    rw [hw]
    simp only [List.length_append, repeatGroup_length]
    simp [resetWords, knownValueWords, configWords]
    omega
  exact ⟨hres, ⟨a, b, ha1, ha3, hb, hw, hlen⟩, by omega⟩

/-- C22: Phase A reset is unconditional. For every configuration, bridge and prior wire
the first four words `MAXInitializeMAX3109` sends are 0x8A01, 0xAA01, 0x8A00, 0xAA00 in
this order; and two bridges that answer alike from the fifth exchange on, however they
answer the four reset exchanges, give the same result and the same wire. -/
theorem C22_reset_unconditional (chip chip2 : Bridge) (pll clk line : Nat) (wire : Wire)
    (h : ∀ x s, chip (wire ++ resetWords ++ x :: s) = chip2 (wire ++ resetWords ++ x :: s)) :
    (((MAXInitializeMAX3109 chip pll clk line wire).2.drop wire.length).take 4
        = [0x8A01, 0xAA01, 0x8A00, 0xAA00]) ∧
    MAXInitializeMAX3109 chip pll clk line wire
      = MAXInitializeMAX3109 chip2 pll clk line wire := by
  constructor
  · obtain ⟨rest, hr⟩ := init_wire_prefix chip pll clk line wire
    rw [hr, List.append_assoc, List.drop_left]
    simp [resetWords]
  · rw [init_after_reset, init_after_reset,
      retryLoopA_congr chip chip2 maxRetryAttempts (wire ++ resetWords) h]
    split
    · rfl
    · obtain ⟨a, _, _, hwa⟩ := retryLoopA_shape chip2 maxRetryAttempts (wire ++ resetWords)
      rw [hwa]
      exact retryLoopB_congr chip chip2 pll clk line maxRetryAttempts 0 _
        (agree_append chip chip2 (wire ++ resetWords) h _)

/-- C22 with the bridge answering 0xFFFF throughout and the bridge answering 0 to the
four reset exchanges and 0xFFFF afterwards: same first four words, same result. -/
theorem C22_reset_unconditional_witness :
    (((MAXInitializeMAX3109 allOnesBridge 0xFF 0x8C 0xFF []).2.drop ([] : Wire).length).take 4
        = [0x8A01, 0xAA01, 0x8A00, 0xAA00]) ∧
    MAXInitializeMAX3109 allOnesBridge 0xFF 0x8C 0xFF []
      = MAXInitializeMAX3109 lateOnesBridge 0xFF 0x8C 0xFF [] ∧
    allOnesBridge [0x8A01] ≠ lateOnesBridge [0x8A01] :=
  ⟨(C22_reset_unconditional allOnesBridge lateOnesBridge 0xFF 0x8C 0xFF []
      (by intro x s; simp [allOnesBridge, lateOnesBridge, resetWords])).1,
   (C22_reset_unconditional allOnesBridge lateOnesBridge 0xFF 0x8C 0xFF []
      (by intro x s; simp [allOnesBridge, lateOnesBridge, resetWords])).2,
   by decide⟩

end CProgCommon
